import Mathlib

/-
  Verification of the WorldEndArchive standalone reader
  (src/standalone/reader.py) : a shallow embedding of the ingestion
  engine (whole-document parse, pattern extraction, chunked streaming,
  salvage) and of the structural normalizer, with proofs of the spec's
  claims about it.

  Modelling conventions:
  * Python/JSON values are the inductive `Json`; numbers are modelled as
    integers (no claim here involves floats).
  * Python dicts are insertion-ordered association lists with unique keys
    produced by `objSet` (replace in place or append), matching CPython.
  * Exceptions are modelled with `Except String`; a caught exception at a
    `try/except` site in the source corresponds to the value branch that
    drops the offending candidate.
  * Python's process-local string hash is an unspecified parameter
    `h : String -> Int`; every theorem is stated for all `h`.
-/

set_option maxRecDepth 8000

namespace WorldEndArchive

/-- JSON-like values as produced by Python's `json.loads`.  Numbers are
modelled as integers. -/
inductive Json where
  | null
  | bool (b : Bool)
  | num (n : Int)
  | str (s : String)
  | arr (elems : List Json)
  | obj (fields : List (String × Json))

/-- First-match lookup in an association list (Python dict lookup). -/
def lookupKV : List (String × Json) → String → Option Json
  | [], _ => none
  | (k, v) :: rest, key => if k = key then some v else lookupKV rest key

/-- `d.get(key)` on a dict: the value, or Python `None` when absent. -/
def lookupD (kvs : List (String × Json)) (key : String) : Json :=
  (lookupKV kvs key).getD .null

/-- `d[key] = v` on a dict: replace the first binding in place, else append
(CPython keeps insertion order). -/
def objSet : List (String × Json) → String → Json → List (String × Json)
  | [], key, v => [(key, v)]
  | (k, w) :: rest, key, v =>
    if k = key then (key, v) :: rest else (k, w) :: objSet rest key v

/-- `key in d` on a dict. -/
def hasKey (kvs : List (String × Json)) (key : String) : Bool :=
  (lookupKV kvs key).isSome

/-- `obj.get(key)` where a non-dict gives `None` (callers that would raise
`AttributeError` on a non-dict are modelled explicitly at their site). -/
def objGetD : Json → String → Json
  | .obj kvs, key => lookupD kvs key
  | _, _ => .null

def isObj : Json → Bool
  | .obj _ => true
  | _ => false

/-- Python truthiness of a value. -/
def truthy : Json → Bool
  | .null => false
  | .bool b => b
  | .num n => n != 0
  | .str s => s != ""
  | .arr xs => !xs.isEmpty
  | .obj kvs => !kvs.isEmpty

mutual

/-- Python `==` between JSON-shaped values (`True == 1`, `0 == False`,
dicts compare as unordered key maps). -/
def pyEq : Json → Json → Bool
  | .null, .null => true
  | .bool a, .bool b => a == b
  | .bool a, .num n => n == (if a then 1 else 0)
  | .num n, .bool b => n == (if b then 1 else 0)
  | .num a, .num b => a == b
  | .str a, .str b => a == b
  | .arr xs, .arr ys => pyEqList xs ys
  | .obj a, .obj b => a.length == b.length && pyEqFields a b
  | _, _ => false

def pyEqList : List Json → List Json → Bool
  | [], [] => true
  | x :: xs, y :: ys => pyEq x y && pyEqList xs ys
  | _, _ => false

def pyEqFields : List (String × Json) → List (String × Json) → Bool
  | [], _ => true
  | (k, v) :: rest, b =>
    (match lookupKV b k with
     | some w => pyEq v w
     | none => false) && pyEqFields rest b

end

/-- Python `hash` of a JSON value, parametrized by the (process-local,
unspecified) string hash `h`; lists and dicts are unhashable. -/
def pyHash (h : String → Int) : Json → Except String Int
  | .null => .ok 0
  | .bool b => .ok (if b then 1 else 0)
  | .num n => .ok n
  | .str s => .ok (h s)
  | .arr _ => .error "TypeError: unhashable type"
  | .obj _ => .error "TypeError: unhashable type"

/-- Python `for x in v`: lists yield elements, strings yield one-character
strings, dicts yield their keys; other values raise `TypeError`. -/
def pyIter : Json → Except String (List Json)
  | .arr xs => .ok xs
  | .str s => .ok (s.data.map fun c => .str (String.singleton c))
  | .obj kvs => .ok (kvs.map fun kv => .str kv.1)
  | _ => .error "TypeError: not iterable"

/-- `mapM` for `Except`, by direct recursion (evaluation order as in the
Python loop). -/
def mapME (f : α → Except String β) : List α → Except String (List β)
  | [] => .ok []
  | x :: xs =>
    match f x with
    | .error e => .error e
    | .ok y =>
      match mapME f xs with
      | .error e => .error e
      | .ok ys => .ok (y :: ys)

/-- The empty database built by `ArchiveReader.__init__` /
`load_large_file` (reader.py lines 16-21 and 80-85). -/
def emptyDb : Json :=
  .obj [("pages", .arr []), ("page_topics", .arr []),
        ("settings", .obj []), ("crawl_queue", .arr [])]

/-! ## The Bracket Scanner

The character-level automaton of `process_structured_json`
(reader.py lines 144-201): depth counting over `{`/`}` with an
"inside a quoted string" flag and a one-shot escape flag.  The variant
over `[`/`]` is the automaton of `extract_other_data` (lines 341-365). -/

/-- One scan of the loop body at reader.py lines 155-175, reported as the
index of the closing `}` (depth back to `0`) or `none` when the buffer
ends first.  `i` is the absolute index of the current character. -/
def scanBrace : List Char → Nat → Int → Bool → Bool → Option Nat
  | [], _, _, _, _ => none
  | c :: rest, i, depth, inQuotes, escapeNext =>
    if escapeNext then scanBrace rest (i + 1) depth inQuotes false
    else if c = '\\' then scanBrace rest (i + 1) depth inQuotes true
    else if c = '"' then scanBrace rest (i + 1) depth (!inQuotes) escapeNext
    else if !inQuotes && c = '{' then scanBrace rest (i + 1) (depth + 1) inQuotes escapeNext
    else if !inQuotes && c = '}' then
      if depth - 1 = 0 then some i
      else scanBrace rest (i + 1) (depth - 1) inQuotes escapeNext
    else scanBrace rest (i + 1) depth inQuotes escapeNext

/-- The Bracket Scanner on braces: from index `start` (pointing at an
opening `{`), the index of the matching `}`, or `none` ("incomplete")
when the buffer ends before the match.  Models reader.py lines 146-175. -/
def findMatchingBrace (buffer : List Char) (start : Nat) : Option Nat :=
  scanBrace (buffer.drop start) start 0 false false

/-- The `[`/`]` variant of the automaton (reader.py lines 341-365). -/
def scanBracket : List Char → Nat → Int → Bool → Bool → Option Nat
  | [], _, _, _, _ => none
  | c :: rest, i, depth, inQuotes, escapeNext =>
    if escapeNext then scanBracket rest (i + 1) depth inQuotes false
    else if c = '\\' then scanBracket rest (i + 1) depth inQuotes true
    else if c = '"' then scanBracket rest (i + 1) depth (!inQuotes) escapeNext
    else if !inQuotes && c = '[' then scanBracket rest (i + 1) (depth + 1) inQuotes escapeNext
    else if !inQuotes && c = ']' then
      if depth - 1 = 0 then some i
      else scanBracket rest (i + 1) (depth - 1) inQuotes escapeNext
    else scanBracket rest (i + 1) depth inQuotes escapeNext

/-- The Bracket Scanner on square brackets, from index `start` pointing at
an opening `[`. -/
def findMatchingBracket (buffer : List Char) (start : Nat) : Option Nat :=
  scanBracket (buffer.drop start) start 0 false false

/-! ## A model of `json.loads`

A recursive-descent JSON parser over `List Char`, with fuel bounded by the
input length.  It is the standard JSON grammar as implemented by Python's
`json` module, restricted to integer numerals (no input in this
development contains a float); duplicate object keys follow CPython's
last-wins dict insertion. -/

def isJsonWs (c : Char) : Bool :=
  c = ' ' || c = '\t' || c = '\n' || c = '\r'

def dropJsonWs : List Char → List Char
  | c :: rest => if isJsonWs c then dropJsonWs rest else c :: rest
  | [] => []

def isDigitCh (c : Char) : Bool := '0' ≤ c ∧ c ≤ '9'

def digitVal (c : Char) : Nat := c.toNat - '0'.toNat

/-- Longest digit run and its value. -/
def takeDigits : List Char → Nat → Nat → (Nat × Nat × List Char)
  | c :: rest, acc, count =>
    if isDigitCh c then takeDigits rest (acc * 10 + digitVal c) (count + 1)
    else (acc, count, c :: rest)
  | [], acc, count => (acc, count, [])

/-- Parse an unsigned JSON integer numeral: at least one digit, no leading
zero on a multi-digit numeral, and no fraction/exponent (floats are
outside this model; no input here contains one). -/
def parseNumTail (cs : List Char) : Option (Nat × List Char) :=
  match takeDigits cs 0 0 with
  | (_, 0, _) => none
  | (n, count, rem) =>
    let leadingZero :=
      match cs with
      | '0' :: _ => count > 1
      | _ => false
    let floatish :=
      match rem with
      | c :: _ => c = '.' || c = 'e' || c = 'E'
      | [] => false
    if leadingZero || floatish then none else some (n, rem)

/-- Parse a JSON string body after the opening quote; common escapes as in
Python's `json` module. -/
def parseStrBody : Nat → List Char → Option (List Char × List Char)
  | 0, _ => none
  | _, [] => none
  | fuel + 1, c :: rest =>
    if c = '"' then some ([], rest)
    else if c = '\\' then
      match rest with
      | [] => none
      | e :: rest' =>
        let dec : Option Char :=
          if e = '"' then some '"'
          else if e = '\\' then some '\\'
          else if e = '/' then some '/'
          else if e = 'n' then some '\n'
          else if e = 't' then some '\t'
          else if e = 'r' then some '\r'
          else if e = 'b' then some (Char.ofNat 8)
          else if e = 'f' then some (Char.ofNat 12)
          else none
        match dec with
        | some d =>
          match parseStrBody fuel rest' with
          | some (cs, rem) => some (d :: cs, rem)
          | none => none
        | none => none
    else
      match parseStrBody fuel rest with
      | some (cs, rem) => some (c :: cs, rem)
      | none => none

/-- Insert fields left to right, a duplicate key overwriting in place, as
CPython's dict construction does. -/
def dictOfFields (acc : List (String × Json)) : List (String × Json) → List (String × Json)
  | [] => acc
  | (k, v) :: rest => dictOfFields (objSet acc k v) rest

mutual

/-- Parse one JSON value (after leading whitespace has been dropped). -/
def parseVal : Nat → List Char → Option (Json × List Char)
  | 0, _ => none
  | fuel + 1, cs =>
    match cs with
    | [] => none
    | c :: rest =>
      if c = 'n' then
        match rest with
        | 'u' :: 'l' :: 'l' :: rem => some (.null, rem)
        | _ => none
      else if c = 't' then
        match rest with
        | 'r' :: 'u' :: 'e' :: rem => some (.bool true, rem)
        | _ => none
      else if c = 'f' then
        match rest with
        | 'a' :: 'l' :: 's' :: 'e' :: rem => some (.bool false, rem)
        | _ => none
      else if c = '"' then
        match parseStrBody (rest.length + 1) rest with
        | some (body, rem) => some (.str (String.mk body), rem)
        | none => none
      else if c = '-' then
        match parseNumTail rest with
        | some (n, rem) => some (.num (-(n : Int)), rem)
        | none => none
      else if isDigitCh c then
        match parseNumTail cs with
        | some (n, rem) => some (.num (n : Int), rem)
        | none => none
      else if c = '[' then parseArrItems fuel (dropJsonWs rest) true
      else if c = '{' then
        match parseObjItems fuel (dropJsonWs rest) true with
        | some (.obj raw, rem) => some (.obj (dictOfFields [] raw), rem)
        | _ => none
      else none

/-- Parse the items of an array after `[`; `first` marks that no item has
been consumed yet. -/
def parseArrItems (fuel : Nat) (cs : List Char) (first : Bool) : Option (Json × List Char) :=
  match fuel with
  | 0 => none
  | fuel + 1 =>
    match cs with
    | ']' :: rem => if first then some (.arr [], rem) else none
    | _ =>
      match parseVal fuel cs with
      | none => none
      | some (v, rem) =>
        match dropJsonWs rem with
        | ',' :: rem' =>
          match parseArrItems fuel (dropJsonWs rem') false with
          | some (.arr vs, rem'') => some (.arr (v :: vs), rem'')
          | _ => none
        | ']' :: rem' => some (.arr [v], rem')
        | _ => none

/-- Parse the fields of an object after `{`, returned in source order
(the caller folds them into a dict with `dictOfFields`). -/
def parseObjItems (fuel : Nat) (cs : List Char) (first : Bool) : Option (Json × List Char) :=
  match fuel with
  | 0 => none
  | fuel + 1 =>
    match cs with
    | '}' :: rem => if first then some (.obj [], rem) else none
    | '"' :: cs' =>
      match parseStrBody (cs'.length + 1) cs' with
      | none => none
      | some (key, rem) =>
        match dropJsonWs rem with
        | ':' :: rem' =>
          match parseVal fuel (dropJsonWs rem') with
          | none => none
          | some (v, rem'') =>
            match dropJsonWs rem'' with
            | ',' :: rem3 =>
              match parseObjItems fuel (dropJsonWs rem3) false with
              | some (.obj kvs, rem4) => some (.obj ((String.mk key, v) :: kvs), rem4)
              | _ => none
            | '}' :: rem3 => some (.obj [(String.mk key, v)], rem3)
            | _ => none
        | _ => none
    | _ => none

end

/-- `json.loads` on a character buffer: one value, surrounding whitespace
allowed, trailing data rejected. -/
def json_loads (cs : List Char) : Option Json :=
  match parseVal (cs.length + 1) (dropJsonWs cs) with
  | some (v, rem) => if dropJsonWs rem = [] then some v else none
  | none => none

/-! ## Models of the specific regular expressions used by the reader

Each `re` pattern of reader.py is modelled by a dedicated matching
function with Python's leftmost-match and lazy/greedy quantifier
semantics for that concrete pattern. -/

/-- Python `\s` (ASCII range; no input here contains Unicode spaces). -/
def isReWs (c : Char) : Bool :=
  c = ' ' || c = '\t' || c = '\n' || c = '\r' || c = Char.ofNat 11 || c = Char.ofNat 12

def countReWs : List Char → Nat
  | c :: rest => if isReWs c then countReWs rest + 1 else 0
  | [] => 0

/-- Consume an exact literal. -/
def dropLit : List Char → List Char → Option (List Char)
  | [], cs => some cs
  | _ :: _, [] => none
  | l :: ls, c :: cs => if c = l then dropLit ls cs else none

/-- Lazy `[\s\S]*?c`: the span up to and including the first `c`. -/
def takeToClose (closer : Char) : List Char → Option (List Char)
  | [] => none
  | c :: rest =>
    if c = closer then some [c]
    else (takeToClose closer rest).map (c :: ·)

/-- Lazy split at the first `c`: the span through `c` and the remainder. -/
def splitAtClose (closer : Char) : List Char → Option (List Char × List Char)
  | [] => none
  | c :: rest =>
    if c = closer then some ([c], rest)
    else (splitAtClose closer rest).map fun p => (c :: p.1, p.2)

/-- `"key"\s*:\s*o` anchored at the current position; on success the
suffix starting at the opener `o`. -/
def keyOpenHere (key : List Char) (opener : Char) (cs : List Char) : Option (List Char) :=
  match dropLit ('"' :: key ++ ['"']) cs with
  | none => none
  | some r1 =>
    let r2 := r1.drop (countReWs r1)
    match r2 with
    | ':' :: r3 =>
      let r4 := r3.drop (countReWs r3)
      match r4 with
      | c :: _ => if c = opener then some r4 else none
      | [] => none
    | _ => none

/-- Leftmost occurrence of `"key"\s*:\s*o`; the suffix at the opener. -/
def searchKeyOpen (key : List Char) (opener : Char) : List Char → Option (List Char)
  | [] => none
  | cs@(_ :: rest) =>
    match keyOpenHere key opener cs with
    | some r => some r
    | none => searchKeyOpen key opener rest

/-- The lazy-group regexes `"key"\s*:\s*(\[[\s\S]*?\])` (and the `{`/`}`
form): the group runs from the opener to the *first* closer.  Models
reader.py lines 295, 310, 321, 336, 384, 485. -/
def spanLazy (key : List Char) (opener closer : Char) (cs : List Char) : Option (List Char) :=
  match searchKeyOpen key opener cs with
  | some (o :: rest) => (takeToClose closer rest).map (o :: ·)
  | _ => none

/-- `extract_other_data`'s `page_topics` span (reader.py lines 336-368):
the regex only anchors the key (and requires some `]` to exist), the real
end is found by the Bracket Scanner. -/
def topicsSpanBalanced (cs : List Char) : Option (List Char) :=
  match searchKeyOpen "page_topics".data '[' cs with
  | some suffix =>
    match suffix with
    | '[' :: rest =>
      if (takeToClose ']' rest).isSome then
        match findMatchingBracket suffix 0 with
        | some i => some (suffix.take (i + 1))
        | none => none
      else none
    | _ => none
  | none => none

/-- The whole-database regex `\{[\s\S]*?"pages"\s*:\s*\[[\s\S]*?\][\s\S]*?\}`
of reader.py line 282: from the first `{`, the first following
`"pages"\s*:\s*[`, the first `]` after that, the first `}` after that. -/
def dbMatchSpan (cs : List Char) : Option (List Char) :=
  match splitAtClose '{' cs with
  | none => none
  | some (_, afterBrace) =>
    let suffix := '{' :: afterBrace
    match searchKeyOpen "pages".data '[' afterBrace with
    | some ('[' :: r2) =>
      match splitAtClose ']' r2 with
      | some (_, afterBk) =>
        match splitAtClose '}' afterBk with
        | some (_, afterEnd) => some (suffix.take (suffix.length - afterEnd.length))
        | none => none
      | none => none
    | _ => none

/-- `"key"\s*:\s*"([^"]+)"` anchored here: the captured string and the
remainder after the match. -/
def kvStrHere (key : List Char) (cs : List Char) : Option (List Char × List Char) :=
  match dropLit ('"' :: key ++ ['"']) cs with
  | none => none
  | some r1 =>
    let r2 := r1.drop (countReWs r1)
    match r2 with
    | ':' :: r3 =>
      let r4 := r3.drop (countReWs r3)
      match r4 with
      | '"' :: r5 =>
        match splitAtClose '"' r5 with
        | some (sp, after) =>
          let cap := sp.dropLast
          if cap.isEmpty then none else some (cap, after)
        | none => none
      | _ => none
    | _ => none

/-- `re.search` for `"key"\s*:\s*"([^"]+)"`: first captured value. -/
def kvStrSearch (key : List Char) : List Char → Option String
  | [] => none
  | cs@(_ :: rest) =>
    match kvStrHere key cs with
    | some (cap, _) => some (String.mk cap)
    | none => kvStrSearch key rest

/-- `re.finditer` for `"url"\s*:\s*"([^"]+)"` (reader.py line 532):
`(matchStart, matchEnd, capture)` triples, non-overlapping, left to
right.  `i` is the absolute index of the current suffix. -/
def urlFindItersF : Nat → List Char → Nat → List (Nat × Nat × String)
  | 0, _, _ => []
  | _ + 1, [], _ => []
  | fuel + 1, cs@(_ :: rest), i =>
    match kvStrHere "url".data cs with
    | some (cap, after) =>
      let mlen := cs.length - after.length
      (i, i + mlen, String.mk cap) :: urlFindItersF fuel after (i + mlen)
    | none => urlFindItersF fuel rest (i + 1)

def urlFindIters (cs : List Char) : List (Nat × Nat × String) :=
  urlFindItersF (cs.length + 1) cs 0

/-- Substring containment (Python `sub in s`). -/
def containsSub (needle : List Char) : List Char → Bool
  | [] => needle.isEmpty
  | hay@(_ :: rest) =>
    if needle.isPrefixOf hay then true else containsSub needle rest

/-! ### The page/topic object patterns of `extract_objects`

`page_pattern` (reader.py line 448) is
`\{\s*"(?:K1|...|Kn)[\s\S]*?(?:"(?:K1|...|Kn)"[\s\S]*?){1,}?\}`.
With its lazy quantifiers a match anchored at a `{` is: `{`, whitespace,
`"` followed by one of the keys, then the first complete quoted key
`"K"` after that, then the first `}` after it.  `topic_pattern`
(line 466) and the pattern of `extract_topics` (line 498) are the same
shape over the topic keys. -/

def pageKeys : List (List Char) :=
  ["id".data, "url".data, "title".data, "html_content".data,
   "date_archived".data, "description".data]

def topicKeys : List (List Char) := ["id".data, "topic".data, "page_id".data]

/-- Length of `"K"` when the suffix starts with a fully quoted key. -/
def quotedKeyHere (keys : List (List Char)) (cs : List Char) : Option Nat :=
  keys.foldr (fun k acc =>
    if ('"' :: k ++ ['"']).isPrefixOf cs then some (k.length + 2) else acc) none

/-- Length of `"K` when the suffix starts with a quote and a key (the
pattern's opening alternation has no closing quote). -/
def prefKeyHere (keys : List (List Char)) (cs : List Char) : Option Nat :=
  keys.foldr (fun k acc =>
    if ('"' :: k).isPrefixOf cs then some (k.length + 1) else acc) none

/-- Index and length of the first fully quoted key occurrence. -/
def findQuotedKey (keys : List (List Char)) : List Char → Option (Nat × Nat)
  | [] => none
  | cs@(_ :: rest) =>
    match quotedKeyHere keys cs with
    | some l => some (0, l)
    | none => (findQuotedKey keys rest).map fun p => (p.1 + 1, p.2)

def firstCharIdx (ch : Char) : List Char → Option Nat
  | [] => none
  | c :: rest =>
    if c = ch then some 0 else (firstCharIdx ch rest).map (· + 1)

/-- Length of the object-pattern match anchored at the current position,
when there is one. -/
def patMatchHere (keys : List (List Char)) (cs : List Char) : Option Nat :=
  match cs with
  | '{' :: rest =>
    let wsn := countReWs rest
    let afterWs := rest.drop wsn
    match prefKeyHere keys afterWs with
    | none => none
    | some kl =>
      let r2 := afterWs.drop kl
      match findQuotedKey keys r2 with
      | none => none
      | some (qi, ql) =>
        let r3 := r2.drop (qi + ql)
        match firstCharIdx '}' r3 with
        | none => none
        | some ci => some (1 + wsn + kl + qi + ql + ci + 1)
  | _ => none

/-- `re.finditer` of an object pattern: non-overlapping matches, scanning
left to right. -/
def patFindAllF (keys : List (List Char)) : Nat → List Char → List (List Char)
  | 0, _ => []
  | _ + 1, [] => []
  | fuel + 1, cs@(_ :: rest) =>
    match patMatchHere keys cs with
    | some len => cs.take len :: patFindAllF keys fuel (cs.drop len)
    | none => patFindAllF keys fuel rest

def patFindAll (keys : List (List Char)) (cs : List Char) : List (List Char) :=
  patFindAllF keys (cs.length + 1) cs

/-! ## `cleanup_json` (reader.py lines 516-522) -/

def isWordCh (c : Char) : Bool :=
  ('a' ≤ c ∧ c ≤ 'z') || ('A' ≤ c ∧ c ≤ 'Z') || ('0' ≤ c ∧ c ≤ '9') || c = '_'

/-- After a `,`: optional whitespace then a closing `}`/`]`, as matched by
`,\s*(\}|\])`. -/
def wsCloser (cs : List Char) : Option (Char × List Char) :=
  let r := cs.drop (countReWs cs)
  match r with
  | c :: rest => if c = '}' || c = ']' then some (c, rest) else none
  | [] => none

/-- `re.sub(r',\s*(\}|\])', r'\1', s)`: drop trailing commas. -/
def stripTrailingCommasF : Nat → List Char → List Char
  | 0, cs => cs
  | _ + 1, [] => []
  | fuel + 1, c :: rest =>
    if c = ',' then
      match wsCloser rest with
      | some (closer, rest') => closer :: stripTrailingCommasF fuel rest'
      | none => ',' :: stripTrailingCommasF fuel rest
    else c :: stripTrailingCommasF fuel rest

/-- Tail of a bare-key match after a `{` or `,`: whitespace, a maximal
word-character run, whitespace, `:`. -/
def bareKeyTail (cs : List Char) : Option (List Char × List Char × List Char × List Char) :=
  let n1 := countReWs cs
  let ws1 := cs.take n1
  let r1 := cs.drop n1
  let tok := r1.takeWhile isWordCh
  if tok.isEmpty then none
  else
    let r2 := r1.drop tok.length
    let n2 := countReWs r2
    let ws2 := r2.take n2
    match r2.drop n2 with
    | ':' :: rest => some (ws1, tok, ws2, rest)
    | _ => none

/-- `re.sub(r'([{,]\s*)([a-zA-Z0-9_]+)(\s*:)', r'\1"\2"\3', s)`: quote
bare object keys. -/
def quoteBareKeysF : Nat → List Char → List Char
  | 0, cs => cs
  | _ + 1, [] => []
  | fuel + 1, c :: rest =>
    if c = '{' || c = ',' then
      match bareKeyTail rest with
      | some (ws1, tok, ws2, rest') =>
        c :: (ws1 ++ '"' :: (tok ++ '"' :: (ws2 ++ ':' :: quoteBareKeysF fuel rest')))
      | none => c :: quoteBareKeysF fuel rest
    else c :: quoteBareKeysF fuel rest

/-- `cleanup_json` (reader.py lines 516-522): single quotes to double
quotes, strip trailing commas, quote bare keys. -/
def cleanup_json (cs : List Char) : List Char :=
  let s1 := cs.map fun c => if c = '\'' then '"' else c
  let s2 := stripTrailingCommasF (s1.length + 1) s1
  quoteBareKeysF (s2.length + 1) s2

/-! ## The ingestion functions of `ArchiveReader` -/

/-- `is_valid_page` (reader.py lines 524-527). -/
def is_valid_page : Json → Bool
  | .obj kvs => hasKey kvs "url" || hasKey kvs "title" || hasKey kvs "id"
  | _ => false

/-- The database's value at `key` when the database is a dict and the
value is a list. -/
def dbListVal (db : Json) (key : String) : Option (List Json) :=
  match db with
  | .obj kvs =>
    match lookupKV kvs key with
    | some (.arr xs) => some xs
    | _ => none
  | _ => none

/-- `db[key] = v` (no effect on a non-dict, which no call site reaches). -/
def dbSetVal (db : Json) (key : String) (v : Json) : Json :=
  match db with
  | .obj kvs => .obj (objSet kvs key v)
  | _ => db

/-- The duplicate test of `extract_objects` (reader.py lines 456-458):
`any(p.get('url') == o.get('url') or (p.get('id') and p.get('id') ==
o.get('id')) for p in pages)`; a non-dict `p` raises. -/
def dupCheckPages : List Json → Json → Except String Bool
  | [], _ => .ok false
  | p :: rest, o =>
    match p with
    | .obj kvs =>
      if pyEq (lookupD kvs "url") (objGetD o "url")
          || (truthy (lookupD kvs "id") && pyEq (lookupD kvs "id") (objGetD o "id")) then
        .ok true
      else dupCheckPages rest o
    | _ => .error "AttributeError"

/-- The duplicate test for topic relations (reader.py lines 474-478). -/
def dupCheckTopics : List Json → Json → Except String Bool
  | [], _ => .ok false
  | t :: rest, o =>
    match t with
    | .obj kvs =>
      if pyEq (lookupD kvs "topic") (objGetD o "topic")
          && pyEq (lookupD kvs "page_id") (objGetD o "page_id") then
        .ok true
      else dupCheckTopics rest o
    | _ => .error "AttributeError"

/-- One candidate span of `page_pattern` (reader.py lines 449-463): key
substring check, `cleanup_json`, parse, `is_valid_page`, duplicate check,
append.  Any exception in the loop body is caught (`continue`). -/
def admitPageSpan (db : Json) (span : List Char) : Json :=
  if containsSub "\"url\"".data span || containsSub "\"title\"".data span
      || containsSub "\"html_content\"".data span then
    match json_loads (cleanup_json span) with
    | some o =>
      if is_valid_page o then
        match dbListVal db "pages" with
        | some ps =>
          match dupCheckPages ps o with
          | .ok false => dbSetVal db "pages" (.arr (ps ++ [o]))
          | _ => db
        | none => db
      else db
    | none => db
  else db

/-- One candidate span of `topic_pattern` (reader.py lines 467-482). -/
def admitTopicSpan (db : Json) (span : List Char) : Json :=
  if containsSub "\"topic\"".data span && containsSub "\"page_id\"".data span then
    match json_loads (cleanup_json span) with
    | some o =>
      match o with
      | .obj kvs =>
        if hasKey kvs "topic" && hasKey kvs "page_id" then
          match dbListVal db "page_topics" with
          | some ts =>
            match dupCheckTopics ts o with
            | .ok false => dbSetVal db "page_topics" (.arr (ts ++ [o]))
            | _ => db
          | none => db
        else db
      | _ => db
    | none => db
  else db

/-- The settings step of `extract_objects` (reader.py lines 485-494):
lazy-regex span, `cleanup_json`, parse, and *merge* into the existing
settings dict with `dict.update`. -/
def settingsStepMerge (cs : List Char) (db : Json) : Json :=
  match spanLazy "settings".data '{' '}' cs with
  | some sp =>
    match json_loads (cleanup_json sp) with
    | some (.obj newKvs) =>
      match db with
      | .obj dkvs =>
        match lookupKV dkvs "settings" with
        | some (.obj skvs) => .obj (objSet dkvs "settings" (.obj (dictOfFields skvs newKvs)))
        | _ => db
      | _ => db
    | _ => db
  | none => db

/-- `extract_objects` (reader.py lines 445-494). -/
def extract_objects (cs : List Char) (db : Json) : Json :=
  let db1 := (patFindAll pageKeys cs).foldl admitPageSpan db
  let db2 := (patFindAll topicKeys cs).foldl admitTopicSpan db1
  settingsStepMerge cs db2

/-- `extract_topics` (reader.py lines 496-514). -/
def extract_topics (cs : List Char) (db : Json) : Json :=
  (patFindAll topicKeys cs).foldl admitTopicSpan db

/-- The array/settings section of `extract_full_database` (reader.py
lines 293-329), reached when the whole-database regex fails: lazy-regex
spans for `pages` and `page_topics` parsed wholesale (falling back to
`extract_objects` for pages), then a lazy-regex settings span that
*replaces* the settings value. -/
def extractFullRest (cs : List Char) (db : Json) : Json :=
  let db1 :=
    match spanLazy "pages".data '[' ']' cs with
    | some sp =>
      match json_loads sp with
      | some (.arr xs) => dbSetVal db "pages" (.arr xs)
      | some _ => db
      | none => extract_objects cs db
    | none => extract_objects cs db
  let db2 :=
    match spanLazy "page_topics".data '[' ']' cs with
    | some sp =>
      match json_loads sp with
      | some (.arr xs) => dbSetVal db1 "page_topics" (.arr xs)
      | _ => db1
    | none => db1
  match spanLazy "settings".data '{' '}' cs with
  | some sp =>
    match json_loads sp with
    | some (.obj kvs) => dbSetVal db2 "settings" (.obj kvs)
    | _ => db2
  | none => db2

/-- `extract_full_database` (reader.py lines 279-329). -/
def extract_full_database (cs : List Char) (db : Json) : Json :=
  match dbMatchSpan cs with
  | some sp =>
    match json_loads sp with
    | some (.obj kvs) =>
      if hasKey kvs "pages" then .obj kvs else extractFullRest cs db
    | _ => extractFullRest cs db
  | none => extractFullRest cs db

/-! ## The Structural Normalizer (`verify_and_fix_structure`) -/

/-- `if key not in db: db[key] = v` (reader.py lines 401-411). -/
def ensureKey (kvs : List (String × Json)) (key : String) (v : Json) : List (String × Json) :=
  if hasKey kvs key then kvs else objSet kvs key v

/-- The per-page repair loop body (reader.py lines 414-426): synthetic
`id` from `hash(url) % 10000000` when absent, default `title`, default
`date_archived`.  A non-dict page is skipped; an unhashable `url` value
raises. -/
def fixPage (h : String → Int) (now : String) : Json → Except String Json
  | .obj kvs =>
    match (if !hasKey kvs "id" && hasKey kvs "url" then
            (pyHash h (lookupD kvs "url")).map fun n => objSet kvs "id" (.num (n % 10000000))
          else .ok kvs) with
    | .error e => .error e
    | .ok kvs1 =>
      .ok (.obj (ensureKey (ensureKey kvs1 "title" (.str "Untitled"))
        "date_archived" (.str now)))
  | j => .ok j

/-- `hash(v)` raises `TypeError` exactly on lists and dicts. -/
def isUnhashable : Json → Bool
  | .arr _ => true
  | .obj _ => true
  | _ => false

/-- One page's contribution to `page_ids = {p.get("id") for p in pages if
p.get("id")}` (reader.py line 430): a non-dict raises, a truthy
unhashable id raises at the set insertion. -/
def idOfPage : Json → Except String (Option Json)
  | .obj kvs =>
    let v := lookupD kvs "id"
    if truthy v then
      if isUnhashable v then .error "TypeError: unhashable type" else .ok (some v)
    else .ok none
  | _ => .error "AttributeError"

/-- `page_ids` as the list of inserted values; Python-set membership is
`fun x => ids.any (pyEq x)`. -/
def buildPageIds : List Json → Except String (List Json)
  | [] => .ok []
  | p :: rest =>
    match idOfPage p with
    | .error e => .error e
    | .ok o =>
      match buildPageIds rest with
      | .error e => .error e
      | .ok ids => .ok (match o with | some v => v :: ids | none => ids)

/-- The relation filter body (reader.py lines 432-441): skip non-dicts and
relations missing `topic`/`page_id`; keep a relation iff its `page_id` is
in `page_ids` (an unhashable `page_id` raises at the set lookup). -/
def topicStep (ids : List Json) (t : Json) : Except String (Option Json) :=
  match t with
  | .obj kvs =>
    if !hasKey kvs "topic" || !hasKey kvs "page_id" then .ok none
    else
      let pid := lookupD kvs "page_id"
      if isUnhashable pid then .error "TypeError: unhashable type"
      else .ok (if ids.any (fun y => pyEq pid y) then some (.obj kvs) else none)
  | _ => .ok none

def filterTopics (ids : List Json) : List Json → Except String (List Json)
  | [] => .ok []
  | t :: rest =>
    match topicStep ids t with
    | .error e => .error e
    | .ok o =>
      match filterTopics ids rest with
      | .error e => .error e
      | .ok vs => .ok (match o with | some v => v :: vs | none => vs)

/-- The four `ensureKey` steps of reader.py lines 401-411. -/
def ensureAll (kvs : List (String × Json)) : List (String × Json) :=
  ensureKey (ensureKey (ensureKey (ensureKey kvs
    "pages" (.arr [])) "page_topics" (.arr [])) "settings" (.obj [])) "crawl_queue" (.arr [])

/-- The pages container after the repair loop: a list's elements were
replaced in place; any other container is unchanged (its iteration cannot
yield dicts, so the loop mutated nothing). -/
def pagesRepl (pagesV : Json) (items2 : List Json) : Json :=
  match pagesV with
  | .arr _ => .arr items2
  | v => v

/-- `verify_and_fix_structure` (reader.py lines 394-443), parametrized by
the process-local string hash `h` and the current time `now`. -/
def verify_and_fix_structure (h : String → Int) (now : String) : Json → Except String Json
  | .obj kvs0 =>
    let kvs := ensureAll kvs0
    let pagesV := lookupD kvs "pages"
    match pyIter pagesV with
    | .error e => .error e
    | .ok items =>
      match mapME (fixPage h now) items with
      | .error e => .error e
      | .ok items2 =>
        let pagesV2 := pagesRepl pagesV items2
        match pyIter pagesV2 with
        | .error e => .error e
        | .ok idItems =>
          match buildPageIds idItems with
          | .error e => .error e
          | .ok ids =>
            match pyIter (lookupD kvs "page_topics") with
            | .error e => .error e
            | .ok tItems =>
              match filterTopics ids tItems with
              | .error e => .error e
              | .ok valid =>
                .ok (.obj (objSet (objSet kvs "pages" pagesV2) "page_topics" (.arr valid)))
  | _ => .ok emptyDb

/-! ## Salvage, the unstructured strategy, and the whole-document path -/

/-- `any(p.get('url') == url for p in pages)` (reader.py line 542). -/
def urlDupAny : List Json → String → Except String Bool
  | [], _ => .ok false
  | p :: rest, url =>
    match p with
    | .obj kvs =>
      if pyEq (lookupD kvs "url") (.str url) then .ok true else urlDupAny rest url
    | _ => .error "AttributeError"

/-- `self.database["pages"]` where anything but a dict holding a list
raises (directly or at the subsequent iteration/`append`). -/
def dbPagesExc (db : Json) : Except String (List Json) :=
  match db with
  | .obj kvs =>
    match lookupKV kvs "pages" with
    | some (.arr xs) => pure xs
    | some _ => .error "TypeError"
    | none => .error "KeyError"
  | _ => .error "TypeError"

/-- The salvage loop of `recover_basic_pages` (reader.py lines 538-566):
for each url match (with its enumerate index `i`), skip known urls, search
a +-500 character context window for a title and a description, and append
a minimal page with sequential synthetic id `i + 1`. -/
def recoverLoop (now : String) (text : List Char) :
    List (Nat × Nat × Nat × String) → Json → Except String Json
  | [], db => pure db
  | (i, mstart, mend, url) :: rest, db => do
    let ps ← dbPagesExc db
    let dup ← urlDupAny ps url
    if dup then recoverLoop now text rest db
    else
      let context := (text.take (mend + 500)).drop (mstart - 500)
      let title := (kvStrSearch "title".data context).getD "Unknown"
      let description :=
        (kvStrSearch "description".data context).getD "Recovered from partially corrupt data"
      let page := Json.obj [("id", .num ((i : Int) + 1)), ("url", .str url),
        ("title", .str title), ("description", .str description),
        ("date_archived", .str now)]
      recoverLoop now text rest (dbSetVal db "pages" (.arr (ps ++ [page])))

/-- `recover_basic_pages` (reader.py lines 529-566). -/
def recover_basic_pages (now : String) (text : List Char) (db : Json) : Except String Json :=
  recoverLoop now text ((urlFindIters text).enum.map fun p => (p.1, p.2)) db

/-- `process_unstructured_json` (reader.py lines 227-277) for an input
that fits one 5 MB read: extract objects from the buffer, apply the
20000-character buffer truncation of line 253, the final extraction pass
of line 259 on the remaining buffer, salvage when no page was found
(line 262), then the normalizer.  The source's `return False` (and any
exception reaching its `except`) is an `error`. -/
def process_unstructured_json (h : String → Int) (now : String) (cs : List Char) :
    Except String Json := do
  let db1 := extract_objects cs emptyDb
  let buf := if cs.length > 20000 then cs.drop (cs.length - 20000) else cs
  let db2 := extract_objects buf db1
  let db3 ←
    if ((dbListVal db2 "pages").getD []).isEmpty then recover_basic_pages now buf db2
    else pure db2
  if ((dbListVal db3 "pages").getD []).isEmpty then .error "no valid pages"
  else verify_and_fix_structure h now db3

/-- The whole-document branch of `load_file` (reader.py lines 44-54): the
full text parses with `json.loads` and is a dict, the normalizer runs,
the load succeeds.  Every other branch of `load_file` falls through to
another strategy (modelled by its own function here) and is reported as
an `error`. -/
def load_file_whole (h : String → Int) (now : String) (raw : List Char) : Except String Json :=
  match json_loads raw with
  | some (.obj kvs) => verify_and_fix_structure h now (.obj kvs)
  | some _ => .error "fallthrough: parsed value is not a dict"
  | none => .error "fallthrough: JSONDecodeError"

/-! ## `get_page_topics` -/

/-- Python `str.split(",")`. -/
def splitComma : List Char → List (List Char)
  | [] => [[]]
  | c :: rest =>
    let r := splitComma rest
    if c = ',' then [] :: r
    else
      match r with
      | g :: gs => (c :: g) :: gs
      | [] => [[c]]

/-- Python `str.strip()` (ASCII whitespace; no input here has more). -/
def pyStrip (cs : List Char) : List Char :=
  ((cs.dropWhile isReWs).reverse.dropWhile isReWs).reverse

/-- The relation-collection comprehension of `get_page_topics`
(reader.py lines 659-662); a non-dict relation raises. -/
def topicsOfRels : List Json → Json → Except String (List Json)
  | [], _ => pure []
  | t :: rest, pid =>
    match t with
    | .obj kvs => do
      let tail ← topicsOfRels rest pid
      if pyEq (lookupD kvs "page_id") pid && truthy (lookupD kvs "topic") then
        pure (lookupD kvs "topic" :: tail)
      else pure tail
    | _ => .error "AttributeError"

/-- `get_page_topics` (reader.py lines 647-664).  The inline branch calls
`.split(",")` on the `topics` value, so a non-string truthy value (for
instance a list of strings) raises `AttributeError`. -/
def get_page_topics (db page : Json) : Except String Json :=
  match page with
  | .obj pkvs =>
    let tv := lookupD pkvs "topics"
    if truthy tv then
      match tv with
      | .str s =>
        let parts := (splitComma s.data).map pyStrip
        pure (.arr ((parts.filter fun t => !t.isEmpty).map fun t => .str (String.mk t)))
      | _ => .error "AttributeError: split"
    else
      match db with
      | .obj dkvs =>
        let rel := lookupD dkvs "page_topics"
        if truthy rel then
          let pid := lookupD pkvs "id"
          if truthy pid then do
            let items ← pyIter rel
            let vals ← topicsOfRels items pid
            pure (.arr vals)
          else pure (.arr [])
        else pure (.arr [])
      | _ => .error "AttributeError"
  | _ => .error "AttributeError"

/-! ## Spec-level reference definition for the array-section step -/

/-- Modelled from the spec (§4.4 array-section match, §9): locate the
`pages` key by regex but delimit the array span with the Bracket Scanner,
yielding the complete balanced array.  This is the behaviour the spec
claims; `spanLazy` above is what reader.py line 295 actually does. -/
def pagesSpanBalancedSpec (cs : List Char) : Option (List Char) :=
  match searchKeyOpen "pages".data '[' cs with
  | some suffix =>
    match findMatchingBracket suffix 0 with
    | some i => some (suffix.take (i + 1))
    | none => none
  | none => none

/-! ## Concrete inputs used by the claims -/

/-- A stand-in for Python's process-local string hash. -/
def hash7 : String → Int := fun _ => 7

/-- A well-formed file whose `pages` array holds two entries with the same
url (whole-document parse path input). -/
def c1Raw : List Char := "\x7b\"pages\":[\x7b\"url\":\"a\"\x7d,\x7b\"url\":\"a\"\x7d]\x7d".data

/-- The buffer of the Bracket Scanner test:
a `content` string holding a nested brace and escaped quotes. -/
def c4Buffer : List Char := "\x7b\"content\":\"a \x7bnested\x7d \\\"quoted\\\" brace\"\x7d".data

/-- An input whose `pages` array holds a `]` inside a string value. -/
def c5LazyInput : List Char := "\"pages\": [\x7b\"url\":\"a\",\"title\":\"x]y\"\x7d]".data

/-- A `page_topics` array with a `]` inside a string value. -/
def c5BalInput : List Char := "\"page_topics\": [\x7b\"topic\":\"a]b\",\"page_id\":1\x7d]".data

/-- The literal `"pages": [` that precedes an array body. -/
def pagesKeyPre : List Char := "\"pages\": [".data

def c6Frag1 : List Char := "\"settings\": \x7b\"a\":1\x7d".data

def c6Frag2 : List Char := "\"settings\": \x7b\"b\":2\x7d".data

/-- A database whose settings already hold `{"a": 1}`. -/
def dbWithSettingsA : Json :=
  .obj [("pages", .arr []), ("page_topics", .arr []),
        ("settings", .obj [("a", .num 1)]), ("crawl_queue", .arr [])]

/-- A well-formed file whose single page has none of `url`/`title`/`id`. -/
def c7Raw : List Char := "\x7b\"pages\":[\x7b\"foo\":1\x7d]\x7d".data

/-- The salvage-scenario text: a bare url fragment, no enclosing object. -/
def c8Text : List Char := "\"url\": \"http://example.com/a\"".data

/-- The single entry the salvage scenario must produce. -/
def c8Entry (now : String) : Json :=
  .obj [("id", .num 1), ("url", .str "http://example.com/a"),
        ("title", .str "Unknown"),
        ("description", .str "Recovered from partially corrupt data"),
        ("date_archived", .str now)]

/-- The database after the salvage scenario. -/
def c8Db (now : String) : Json :=
  .obj [("pages", .arr [c8Entry now]), ("page_topics", .arr []),
        ("settings", .obj []), ("crawl_queue", .arr [])]

/-- A loaded database with one relation, for the topic-lookup claim. -/
def c9Db : Json :=
  .obj [("pages", .arr []),
        ("page_topics", .arr [.obj [("topic", .str "rel"), ("page_id", .num 1)]]),
        ("settings", .obj []), ("crawl_queue", .arr [])]

/-- An entry carrying its topics inline as a list of strings (the data
model allows this; `print_stats` at reader.py lines 578-583 handles it). -/
def c9PageList : Json :=
  .obj [("id", .num 1), ("topics", .arr [.str "science", .str "math"])]

/-- An entry carrying its topics inline as a comma-separated string. -/
def c9PageStr : Json := .obj [("id", .num 1), ("topics", .str " science , math ,")]

/-- An entry relying on the relation collection. -/
def c9PageRel : Json := .obj [("id", .num 1), ("title", .str "T")]

/-- A database holding one title-only entry (no `url`, no `id`) and one
relation, for the synthetic-id claim. -/
def c10Db : Json :=
  .obj [("pages", .arr [.obj [("title", .str "T")]]),
        ("page_topics", .arr [.obj [("topic", .str "x"), ("page_id", .num 1)]])]

/-- The uniqueness shape enforced by the per-object admission guard: no
two pages are Python-equal on `url`, and no earlier page with a truthy
`id` shares it with a later one. -/
def pagesDistinct (ps : List Json) : Prop :=
  List.Pairwise (fun p q =>
    pyEq (objGetD p "url") (objGetD q "url") = false ∧
    (truthy (objGetD p "id") = true → pyEq (objGetD p "id") (objGetD q "id") = false)) ps

/-- A database whose pages collection is a list satisfying the uniqueness
shape. -/
def pagesDbInv (db : Json) : Prop :=
  ∃ kvs ps, db = .obj kvs ∧ lookupKV kvs "pages" = some (.arr ps) ∧ pagesDistinct ps

/-- The entry of the duplicated whole-document file after normalization. -/
def c1Page : Json :=
  .obj [("url", .str "a"), ("id", .num 7), ("title", .str "Untitled"),
        ("date_archived", .str "NOW")]

/-- The database the whole-document path produces from `c1Raw`. -/
def c1Result : Json :=
  .obj [("pages", .arr [c1Page, c1Page]), ("page_topics", .arr []),
        ("settings", .obj []), ("crawl_queue", .arr [])]

/-- A text holding the same page object twice, for the extraction path. -/
def c1ExtractText : List Char :=
  "[\x7b\"url\":\"a\",\"title\":\"t\"\x7d, \x7b\"url\":\"a\",\"title\":\"t\"\x7d]".data

/-- A text holding two pages with distinct urls, whose synthetic ids the
normalizer's `hash(url) % 10000000` can make collide. -/
def c1CollText : List Char :=
  "[\x7b\"url\":\"a\",\"title\":\"t\"\x7d, \x7b\"url\":\"b\",\"title\":\"t\"\x7d]".data

def c1PageA : Json :=
  .obj [("url", .str "a"), ("title", .str "t"), ("id", .num 7),
        ("date_archived", .str "NOW")]

def c1PageB : Json :=
  .obj [("url", .str "b"), ("title", .str "t"), ("id", .num 7),
        ("date_archived", .str "NOW")]

/-- The collision text after extraction and normalization under `hash7`:
distinct urls, equal truthy synthetic ids. -/
def c1CollDb : Json :=
  .obj [("pages", .arr [c1PageA, c1PageB]), ("page_topics", .arr []),
        ("settings", .obj []), ("crawl_queue", .arr [])]

/-! ## Database projections used in claim statements -/

/-- The entries of the `pages` collection (empty when the collection is
missing or not a list). -/
def dbPagesList (db : Json) : List Json := (dbListVal db "pages").getD []

/-- The entries of the `page_topics` collection. -/
def dbTopicsList (db : Json) : List Json := (dbListVal db "page_topics").getD []

/-! ## Lemmas: dict operations -/

theorem lookupKV_objSet_eq (kvs : List (String × Json)) (k : String) (v : Json) :
    lookupKV (objSet kvs k v) k = some v := by
  induction kvs with
  | nil => simp [objSet, lookupKV]
  | cons kv rest ih =>
    obtain ⟨k', w⟩ := kv
    by_cases hk : k' = k
    · subst hk; simp [objSet, lookupKV]
    · simp [objSet, lookupKV, hk, ih]

theorem lookupKV_objSet_ne (kvs : List (String × Json)) {k' k : String} (v : Json)
    (hne : k' ≠ k) : lookupKV (objSet kvs k' v) k = lookupKV kvs k := by
  induction kvs with
  | nil => simp [objSet, lookupKV, hne]
  | cons kv rest ih =>
    obtain ⟨k0, w⟩ := kv
    by_cases hk : k0 = k'
    · subst hk; simp [objSet, lookupKV, hne]
    · by_cases hk2 : k0 = k
      · subst hk2; simp [objSet, lookupKV, hk]
      · simp [objSet, lookupKV, hk, hk2, ih]

theorem objSet_self {kvs : List (String × Json)} {k : String} {v : Json}
    (hv : lookupKV kvs k = some v) : objSet kvs k v = kvs := by
  induction kvs with
  | nil => simp [lookupKV] at hv
  | cons kv rest ih =>
    obtain ⟨k0, w⟩ := kv
    by_cases hk : k0 = k
    · subst hk
      simp [lookupKV] at hv
      simp [objSet, hv]
    · simp [lookupKV, hk] at hv
      simp [objSet, hk, ih hv]

theorem hasKey_objSet_eq (kvs : List (String × Json)) (k : String) (v : Json) :
    hasKey (objSet kvs k v) k = true := by
  simp [hasKey, lookupKV_objSet_eq]

theorem hasKey_objSet_ne (kvs : List (String × Json)) {k' k : String} (v : Json)
    (hne : k' ≠ k) : hasKey (objSet kvs k' v) k = hasKey kvs k := by
  simp [hasKey, lookupKV_objSet_ne kvs v hne]

theorem ensureKey_of_hasKey {kvs : List (String × Json)} {k : String} (v : Json)
    (hk : hasKey kvs k = true) : ensureKey kvs k v = kvs := by
  simp [ensureKey, hk]

theorem hasKey_ensureKey_self (kvs : List (String × Json)) (k : String) (v : Json) :
    hasKey (ensureKey kvs k v) k = true := by
  by_cases hk : hasKey kvs k = true
  · simp [ensureKey, hk]
  · simp [ensureKey, hk, hasKey_objSet_eq]

theorem hasKey_ensureKey_mono {kvs : List (String × Json)} {k : String} (k' : String)
    (v : Json) (hk : hasKey kvs k = true) : hasKey (ensureKey kvs k' v) k = true := by
  by_cases he : hasKey kvs k' = true
  · simp [ensureKey, he, hk]
  · by_cases hkk : k' = k
    · subst hkk; simp [ensureKey, he, hasKey_objSet_eq]
    · simp [ensureKey, he, hasKey_objSet_ne kvs v hkk, hk]

theorem ensureAll_hasKeys (kvs0 : List (String × Json)) :
    hasKey (ensureAll kvs0) "pages" = true ∧ hasKey (ensureAll kvs0) "page_topics" = true ∧
    hasKey (ensureAll kvs0) "settings" = true ∧ hasKey (ensureAll kvs0) "crawl_queue" = true := by
  simp only [ensureAll]
  refine ⟨?_, ?_, ?_, ?_⟩
  · exact hasKey_ensureKey_mono _ _ (hasKey_ensureKey_mono _ _
      (hasKey_ensureKey_mono _ _ (hasKey_ensureKey_self _ _ _)))
  · exact hasKey_ensureKey_mono _ _ (hasKey_ensureKey_mono _ _ (hasKey_ensureKey_self _ _ _))
  · exact hasKey_ensureKey_mono _ _ (hasKey_ensureKey_self _ _ _)
  · exact hasKey_ensureKey_self _ _ _

theorem ensureAll_of_hasKeys {kvs : List (String × Json)}
    (h1 : hasKey kvs "pages" = true) (h2 : hasKey kvs "page_topics" = true)
    (h3 : hasKey kvs "settings" = true) (h4 : hasKey kvs "crawl_queue" = true) :
    ensureAll kvs = kvs := by
  simp [ensureAll, ensureKey_of_hasKey _ h1, ensureKey_of_hasKey _ h2,
    ensureKey_of_hasKey _ h3, ensureKey_of_hasKey _ h4]

/-! ## Lemmas: the normalizer's components -/

theorem mapME_ok_mem {f : α → Except String β} :
    ∀ {l : List α} {l2 : List β}, mapME f l = .ok l2 → ∀ y ∈ l2, ∃ x ∈ l, f x = .ok y := by
  intro l
  induction l with
  | nil => intro l2 h y hy; simp [mapME] at h; subst h; simp at hy
  | cons x xs ih =>
    intro l2 h y hy
    simp only [mapME] at h
    cases hfx : f x with
    | error e => rw [hfx] at h; exact Except.noConfusion h
    | ok y0 =>
      rw [hfx] at h
      cases hrest : mapME f xs with
      | error e => rw [hrest] at h; exact Except.noConfusion h
      | ok ys =>
        rw [hrest] at h
        injection h with h
        subst h
        rcases List.mem_cons.mp hy with hy | hy
        · exact ⟨x, List.mem_cons_self x xs, by rw [hfx, hy]⟩
        · obtain ⟨x', hx', hfx'⟩ := ih hrest y hy
          exact ⟨x', List.mem_cons_of_mem x hx', hfx'⟩

theorem mapME_id {f : α → Except String α} :
    ∀ {l : List α}, (∀ x ∈ l, f x = .ok x) → mapME f l = .ok l := by
  intro l
  induction l with
  | nil => intro _; rfl
  | cons x xs ih =>
    intro hall
    have hx := hall x (List.mem_cons_self x xs)
    have hxs := ih fun y hy => hall y (List.mem_cons_of_mem x hy)
    simp only [mapME, hx, hxs]

theorem idOfPage_some {p : Json} {y : Json} (h : idOfPage p = .ok (some y)) :
    ∃ kvs, p = .obj kvs ∧ y = lookupD kvs "id" ∧ truthy y = true := by
  cases p with
  | obj kvs =>
    refine ⟨kvs, rfl, ?_⟩
    simp only [idOfPage] at h
    by_cases ht : truthy (lookupD kvs "id") = true
    · rw [if_pos ht] at h
      by_cases hu : isUnhashable (lookupD kvs "id") = true
      · rw [if_pos hu] at h; exact Except.noConfusion h
      · rw [if_neg hu] at h
        injection h with h
        injection h with h
        subst h
        exact ⟨rfl, ht⟩
    · rw [if_neg ht] at h
      injection h with h
      exact Option.noConfusion h
  | null => exact Except.noConfusion h
  | bool b => exact Except.noConfusion h
  | num n => exact Except.noConfusion h
  | str s => exact Except.noConfusion h
  | arr xs => exact Except.noConfusion h

theorem buildPageIds_ok_mem :
    ∀ {items : List Json} {ids : List Json}, buildPageIds items = .ok ids →
      ∀ y ∈ ids, ∃ p ∈ items, idOfPage p = .ok (some y) := by
  intro items
  induction items with
  | nil => intro ids h y hy; simp [buildPageIds] at h; subst h; simp at hy
  | cons p rest ih =>
    intro ids h y hy
    simp only [buildPageIds] at h
    cases hp : idOfPage p with
    | error e => rw [hp] at h; exact Except.noConfusion h
    | ok o =>
      rw [hp] at h
      cases hrest : buildPageIds rest with
      | error e => rw [hrest] at h; exact Except.noConfusion h
      | ok ids0 =>
        rw [hrest] at h
        injection h with h
        subst h
        cases o with
        | some v =>
          rcases List.mem_cons.mp hy with hy | hy
          · exact ⟨p, List.mem_cons_self p rest, by rw [hp, hy]⟩
          · obtain ⟨p', hp', h'⟩ := ih hrest y hy
            exact ⟨p', List.mem_cons_of_mem p hp', h'⟩
        | none =>
          obtain ⟨p', hp', h'⟩ := ih hrest y hy
          exact ⟨p', List.mem_cons_of_mem p hp', h'⟩

theorem buildPageIds_ok_obj :
    ∀ {items : List Json} {ids : List Json}, buildPageIds items = .ok ids →
      ∀ p ∈ items, isObj p = true := by
  intro items
  induction items with
  | nil => intro ids _ p hp; simp at hp
  | cons q rest ih =>
    intro ids h p hp
    simp only [buildPageIds] at h
    cases hq : idOfPage q with
    | error e => rw [hq] at h; exact Except.noConfusion h
    | ok o =>
      rw [hq] at h
      cases hrest : buildPageIds rest with
      | error e => rw [hrest] at h; exact Except.noConfusion h
      | ok ids0 =>
        rcases List.mem_cons.mp hp with hp | hp
        · subst hp
          cases p with
          | obj kvs => rfl
          | null => exact Except.noConfusion hq
          | bool b => exact Except.noConfusion hq
          | num n => exact Except.noConfusion hq
          | str s => exact Except.noConfusion hq
          | arr xs => exact Except.noConfusion hq
        · exact ih hrest p hp

theorem topicStep_some_eq {ids : List Json} {t u : Json}
    (h : topicStep ids t = .ok (some u)) : u = t := by
  cases t with
  | obj kvs =>
    simp only [topicStep] at h
    by_cases hg : (!hasKey kvs "topic" || !hasKey kvs "page_id") = true
    · rw [if_pos hg] at h; injection h with h; exact Option.noConfusion h
    · rw [if_neg hg] at h
      by_cases hu : isUnhashable (lookupD kvs "page_id") = true
      · rw [if_pos hu] at h; exact Except.noConfusion h
      · rw [if_neg hu] at h
        by_cases ha : (ids.any fun y => pyEq (lookupD kvs "page_id") y) = true
        · rw [if_pos ha] at h; injection h with h; injection h with h; exact h.symm
        · rw [if_neg ha] at h; injection h with h; exact Option.noConfusion h
  | null => simp [topicStep] at h
  | bool b => simp [topicStep] at h
  | num n => simp [topicStep] at h
  | str s => simp [topicStep] at h
  | arr xs => simp [topicStep] at h

theorem topicStep_some_spec {ids : List Json} {t u : Json}
    (h : topicStep ids t = .ok (some u)) :
    ∃ kvs, t = .obj kvs ∧ ∃ y ∈ ids, pyEq (lookupD kvs "page_id") y = true := by
  cases t with
  | obj kvs =>
    refine ⟨kvs, rfl, ?_⟩
    simp only [topicStep] at h
    by_cases hg : (!hasKey kvs "topic" || !hasKey kvs "page_id") = true
    · rw [if_pos hg] at h; injection h with h; exact Option.noConfusion h
    · rw [if_neg hg] at h
      by_cases hu : isUnhashable (lookupD kvs "page_id") = true
      · rw [if_pos hu] at h; exact Except.noConfusion h
      · rw [if_neg hu] at h
        by_cases ha : (ids.any fun y => pyEq (lookupD kvs "page_id") y) = true
        · obtain ⟨y, hy, hpy⟩ := List.any_eq_true.mp ha
          exact ⟨y, hy, hpy⟩
        · rw [if_neg ha] at h; injection h with h; exact Option.noConfusion h
  | null => simp [topicStep] at h
  | bool b => simp [topicStep] at h
  | num n => simp [topicStep] at h
  | str s => simp [topicStep] at h
  | arr xs => simp [topicStep] at h

theorem filterTopics_ok_mem {ids : List Json} :
    ∀ {ts vs : List Json}, filterTopics ids ts = .ok vs →
      ∀ v ∈ vs, topicStep ids v = .ok (some v) := by
  intro ts
  induction ts with
  | nil => intro vs h v hv; simp [filterTopics] at h; subst h; simp at hv
  | cons t rest ih =>
    intro vs h v hv
    simp only [filterTopics] at h
    cases ht : topicStep ids t with
    | error e => rw [ht] at h; exact Except.noConfusion h
    | ok o =>
      rw [ht] at h
      cases hrest : filterTopics ids rest with
      | error e => rw [hrest] at h; exact Except.noConfusion h
      | ok vs0 =>
        rw [hrest] at h
        injection h with h
        subst h
        cases o with
        | some u =>
          rcases List.mem_cons.mp hv with hv | hv
          · subst hv
            have := topicStep_some_eq ht
            rw [← this] at ht
            exact ht
          · exact ih hrest v hv
        | none => exact ih hrest v hv

theorem filterTopics_self {ids : List Json} :
    ∀ {ts : List Json}, (∀ t ∈ ts, topicStep ids t = .ok (some t)) →
      filterTopics ids ts = .ok ts := by
  intro ts
  induction ts with
  | nil => intro _; rfl
  | cons t rest ih =>
    intro hall
    have ht := hall t (List.mem_cons_self t rest)
    have hrest := ih fun u hu => hall u (List.mem_cons_of_mem t hu)
    simp only [filterTopics, ht, hrest]

theorem hasKey_ensureKey_other {kvs : List (String × Json)} {k' k : String} (v : Json)
    (hne : k' ≠ k) : hasKey (ensureKey kvs k' v) k = hasKey kvs k := by
  by_cases he : hasKey kvs k' = true
  · simp [ensureKey, he]
  · simp [ensureKey, he, hasKey_objSet_ne kvs v hne]

/-- What one pass of the page-repair loop guarantees about a dict page. -/
theorem fixPage_obj_inv {h : String → Int} {now : String} {kvs : List (String × Json)}
    {q : Json} (hfix : fixPage h now (.obj kvs) = .ok q) :
    ∃ kvs3, q = .obj kvs3
      ∧ hasKey kvs3 "title" = true
      ∧ hasKey kvs3 "date_archived" = true
      ∧ hasKey kvs3 "id" = (hasKey kvs "id" || hasKey kvs "url")
      ∧ hasKey kvs3 "url" = hasKey kvs "url" := by
  simp only [fixPage] at hfix
  by_cases hg : (!hasKey kvs "id" && hasKey kvs "url") = true
  · rw [if_pos hg] at hfix
    cases hh : pyHash h (lookupD kvs "url") with
    | error e => rw [hh] at hfix; exact Except.noConfusion hfix
    | ok n =>
      rw [hh] at hfix
      simp only [Except.map] at hfix
      injection hfix with hfix
      have hgid : hasKey kvs "id" = false := by
        rcases (Bool.and_eq_true _ _).mp hg with ⟨h1, _⟩
        simpa using h1
      have hgurl : hasKey kvs "url" = true := ((Bool.and_eq_true _ _).mp hg).2
      refine ⟨_, hfix.symm, ?_, ?_, ?_, ?_⟩
      · rw [hasKey_ensureKey_other _ (by decide : ("date_archived" : String) ≠ "title")]
        exact hasKey_ensureKey_self _ _ _
      · exact hasKey_ensureKey_self _ _ _
      · rw [hasKey_ensureKey_other _ (by decide : ("date_archived" : String) ≠ "id"),
          hasKey_ensureKey_other _ (by decide : ("title" : String) ≠ "id"),
          hasKey_objSet_eq, hgid, hgurl]
        rfl
      · rw [hasKey_ensureKey_other _ (by decide : ("date_archived" : String) ≠ "url"),
          hasKey_ensureKey_other _ (by decide : ("title" : String) ≠ "url"),
          hasKey_objSet_ne kvs _ (by decide : ("id" : String) ≠ "url")]
  · rw [if_neg hg] at hfix
    injection hfix with hfix
    have hiu : (hasKey kvs "id" || hasKey kvs "url") = hasKey kvs "id" := by
      by_cases hid : hasKey kvs "id" = true
      · simp [hid]
      · simp only [Bool.not_eq_true] at hid
        have hurl : hasKey kvs "url" = false := by
          by_contra hc
          have hc' : hasKey kvs "url" = true := by
            revert hc; cases hasKey kvs "url" <;> simp
          exact hg (by rw [hid, hc']; rfl)
        rw [hid, hurl]; rfl
    refine ⟨_, hfix.symm, ?_, ?_, ?_, ?_⟩
    · rw [hasKey_ensureKey_other _ (by decide : ("date_archived" : String) ≠ "title")]
      exact hasKey_ensureKey_self _ _ _
    · exact hasKey_ensureKey_self _ _ _
    · rw [hasKey_ensureKey_other _ (by decide : ("date_archived" : String) ≠ "id"),
        hasKey_ensureKey_other _ (by decide : ("title" : String) ≠ "id"), hiu]
    · rw [hasKey_ensureKey_other _ (by decide : ("date_archived" : String) ≠ "url"),
        hasKey_ensureKey_other _ (by decide : ("title" : String) ≠ "url")]

theorem fixPage_idem {h h' : String → Int} {now now' : String} {p q : Json}
    (hfix : fixPage h now p = .ok q) : fixPage h' now' q = .ok q := by
  cases p with
  | obj kvs =>
    obtain ⟨kvs3, rfl, ht, hd, hid, hurl⟩ := fixPage_obj_inv hfix
    have hgf : (!hasKey kvs3 "id" && hasKey kvs3 "url") = false := by
      by_cases hu : hasKey kvs "url" = true
      · rw [hid, hu, Bool.or_true]; rfl
      · have hu' : hasKey kvs "url" = false := by
          revert hu; cases hasKey kvs "url" <;> simp
        rw [hurl, hu', Bool.and_false]
    simp [fixPage, hgf, ensureKey_of_hasKey _ ht, ensureKey_of_hasKey _ hd]
  | null => simp only [fixPage, Except.ok.injEq] at hfix; subst hfix; rfl
  | bool b => simp only [fixPage, Except.ok.injEq] at hfix; subst hfix; rfl
  | num n => simp only [fixPage, Except.ok.injEq] at hfix; subst hfix; rfl
  | str s => simp only [fixPage, Except.ok.injEq] at hfix; subst hfix; rfl
  | arr xs => simp only [fixPage, Except.ok.injEq] at hfix; subst hfix; rfl

theorem fixPage_nonobj {h : String → Int} {now : String} {x : Json}
    (hx : isObj x = false) : fixPage h now x = .ok x := by
  cases x with
  | obj kvs => exact absurd hx (by simp [isObj])
  | null => rfl
  | bool b => rfl
  | num n => rfl
  | str s => rfl
  | arr xs => rfl

/-- A non-`arr` iterable yields only strings. -/
theorem pyIter_nonarr_str {j : Json} {items : List Json}
    (hiter : pyIter j = .ok items) (hna : ∀ xs, j ≠ .arr xs) :
    ∀ x ∈ items, isObj x = false := by
  cases j with
  | arr xs => exact absurd rfl (hna xs)
  | str s =>
    intro x hx
    simp only [pyIter, Except.ok.injEq] at hiter
    subst hiter
    obtain ⟨c, _, rfl⟩ := List.mem_map.mp hx
    rfl
  | obj kvs =>
    intro x hx
    simp only [pyIter, Except.ok.injEq] at hiter
    subst hiter
    obtain ⟨kv, _, rfl⟩ := List.mem_map.mp hx
    rfl
  | null => exact Except.noConfusion hiter
  | bool b => exact Except.noConfusion hiter
  | num n => exact Except.noConfusion hiter

theorem lookupKV_ensureKey_ne {kvs : List (String × Json)} {k' k : String} (v : Json)
    (hne : k' ≠ k) : lookupKV (ensureKey kvs k' v) k = lookupKV kvs k := by
  by_cases he : hasKey kvs k' = true
  · simp [ensureKey, he]
  · simp [ensureKey, he, lookupKV_objSet_ne kvs v hne]

theorem lookupKV_ensureKey_self_of {kvs : List (String × Json)} {k : String} (v : Json)
    (hk : hasKey kvs k = true) : lookupKV (ensureKey kvs k v) k = lookupKV kvs k := by
  simp [ensureKey, hk]

/-- `ensureAll` does not change an existing `pages` value. -/
theorem lookupKV_ensureAll_pages {kvs0 : List (String × Json)}
    (hk : hasKey kvs0 "pages" = true) :
    lookupKV (ensureAll kvs0) "pages" = lookupKV kvs0 "pages" := by
  simp only [ensureAll]
  rw [lookupKV_ensureKey_ne _ (by decide : ("crawl_queue" : String) ≠ "pages"),
    lookupKV_ensureKey_ne _ (by decide : ("settings" : String) ≠ "pages"),
    lookupKV_ensureKey_ne _ (by decide : ("page_topics" : String) ≠ "pages"),
    lookupKV_ensureKey_self_of _ hk]

theorem lookupD_null_of_hasKey_false {kvs : List (String × Json)} {k : String}
    (hk : hasKey kvs k = false) : lookupD kvs k = .null := by
  simp only [hasKey] at hk
  cases hl : lookupKV kvs k with
  | none => simp [lookupD, hl]
  | some v => rw [hl] at hk; exact absurd hk (by simp)

theorem pyEq_null_right {x : Json} (h : pyEq x .null = true) : x = .null := by
  cases x <;> simp [pyEq] at h ⊢

theorem pyEq_null_left {y : Json} (h : pyEq .null y = true) : y = .null := by
  cases y <;> simp [pyEq] at h ⊢

/-- Pointwise reading of a successful `mapME`. -/
theorem mapME_ok_get? {f : α → Except String β} :
    ∀ {l : List α} {l2 : List β}, mapME f l = .ok l2 →
      ∀ i x, l.get? i = some x → ∃ y, l2.get? i = some y ∧ f x = .ok y := by
  intro l
  induction l with
  | nil => intro l2 _ i x hx; simp at hx
  | cons a rest ih =>
    intro l2 hm i x hx
    simp only [mapME] at hm
    cases hfa : f a with
    | error e => rw [hfa] at hm; exact Except.noConfusion hm
    | ok y0 =>
      rw [hfa] at hm
      cases hrest : mapME f rest with
      | error e => rw [hrest] at hm; exact Except.noConfusion hm
      | ok ys =>
        rw [hrest] at hm
        injection hm with hm
        subst hm
        cases i with
        | zero =>
          simp only [List.get?] at hx
          injection hx with hx
          subst hx
          exact ⟨y0, rfl, hfa⟩
        | succ n =>
          simp only [List.get?] at hx ⊢
          exact ih hrest n x hx

/-- The page-repair loop never changes an entry's `url`. -/
theorem fixPage_url_eq {h : String → Int} {now : String} {p q : Json}
    (hf : fixPage h now p = .ok q) : objGetD q "url" = objGetD p "url" := by
  cases p with
  | obj kvs =>
    simp only [fixPage] at hf
    by_cases hg : (!hasKey kvs "id" && hasKey kvs "url") = true
    · rw [if_pos hg] at hf
      cases hh : pyHash h (lookupD kvs "url") with
      | error e => rw [hh] at hf; exact Except.noConfusion hf
      | ok n =>
        rw [hh] at hf
        simp only [Except.map] at hf
        injection hf with hf
        subst hf
        show lookupD (ensureKey (ensureKey (objSet kvs "id" (.num (n % 10000000)))
          "title" (.str "Untitled")) "date_archived" (.str now)) "url" = lookupD kvs "url"
        simp [lookupD,
          lookupKV_ensureKey_ne _ (by decide : ("date_archived" : String) ≠ "url"),
          lookupKV_ensureKey_ne _ (by decide : ("title" : String) ≠ "url"),
          lookupKV_objSet_ne _ _ (by decide : ("id" : String) ≠ "url")]
    · rw [if_neg hg] at hf
      injection hf with hf
      subst hf
      show lookupD (ensureKey (ensureKey kvs "title" (.str "Untitled"))
        "date_archived" (.str now)) "url" = lookupD kvs "url"
      simp [lookupD,
        lookupKV_ensureKey_ne _ (by decide : ("date_archived" : String) ≠ "url"),
        lookupKV_ensureKey_ne _ (by decide : ("title" : String) ≠ "url")]
  | null => injection hf with hf; subst hf; rfl
  | bool b => injection hf with hf; subst hf; rfl
  | num n => injection hf with hf; subst hf; rfl
  | str s => injection hf with hf; subst hf; rfl
  | arr xs => injection hf with hf; subst hf; rfl

/-- Repairing the pages preserves pairwise url-distinctness. -/
theorem mapME_pairwise_url {h : String → Int} {now : String} :
    ∀ {l l2 : List Json}, mapME (fixPage h now) l = .ok l2 →
      List.Pairwise (fun p q => pyEq (objGetD p "url") (objGetD q "url") = false) l →
      List.Pairwise (fun p q => pyEq (objGetD p "url") (objGetD q "url") = false) l2 := by
  intro l
  induction l with
  | nil =>
    intro l2 hm _
    simp only [mapME, Except.ok.injEq] at hm
    subst hm
    exact List.Pairwise.nil
  | cons x xs ih =>
    intro l2 hm hp
    simp only [mapME] at hm
    cases hfx : fixPage h now x with
    | error e => rw [hfx] at hm; exact Except.noConfusion hm
    | ok y =>
      rw [hfx] at hm
      cases hrest : mapME (fixPage h now) xs with
      | error e => rw [hrest] at hm; exact Except.noConfusion hm
      | ok ys =>
        rw [hrest] at hm
        injection hm with hm
        subst hm
        rcases List.pairwise_cons.mp hp with ⟨hx, hxs⟩
        refine List.Pairwise.cons ?_ (ih hrest hxs)
        intro b hb
        obtain ⟨a, ha, hfa⟩ := mapME_ok_mem hrest b hb
        rw [fixPage_url_eq hfx, fixPage_url_eq hfa]
        exact hx a ha

/-- Inversion of a successful normalizer run on a dict database. -/
theorem verify_ok_obj {h : String → Int} {now : String} {kvs0 : List (String × Json)}
    {db' : Json} (hok : verify_and_fix_structure h now (.obj kvs0) = .ok db') :
    ∃ items items2 idItems ids tItems valid,
      pyIter (lookupD (ensureAll kvs0) "pages") = .ok items
      ∧ mapME (fixPage h now) items = .ok items2
      ∧ pyIter (pagesRepl (lookupD (ensureAll kvs0) "pages") items2) = .ok idItems
      ∧ buildPageIds idItems = .ok ids
      ∧ pyIter (lookupD (ensureAll kvs0) "page_topics") = .ok tItems
      ∧ filterTopics ids tItems = .ok valid
      ∧ db' = .obj (objSet (objSet (ensureAll kvs0) "pages"
          (pagesRepl (lookupD (ensureAll kvs0) "pages") items2)) "page_topics" (.arr valid)) := by
  simp only [verify_and_fix_structure] at hok
  cases h1 : pyIter (lookupD (ensureAll kvs0) "pages") with
  | error e => simp only [h1] at hok; exact Except.noConfusion hok
  | ok items =>
    simp only [h1] at hok
    cases h2 : mapME (fixPage h now) items with
    | error e => simp only [h2] at hok; exact Except.noConfusion hok
    | ok items2 =>
      simp only [h2] at hok
      cases h3 : pyIter (pagesRepl (lookupD (ensureAll kvs0) "pages") items2) with
      | error e => simp only [h3] at hok; exact Except.noConfusion hok
      | ok idItems =>
        simp only [h3] at hok
        cases h4 : buildPageIds idItems with
        | error e => simp only [h4] at hok; exact Except.noConfusion hok
        | ok ids =>
          simp only [h4] at hok
          cases h5 : pyIter (lookupD (ensureAll kvs0) "page_topics") with
          | error e => simp only [h5] at hok; exact Except.noConfusion hok
          | ok tItems =>
            simp only [h5] at hok
            cases h6 : filterTopics ids tItems with
            | error e => simp only [h6] at hok; exact Except.noConfusion hok
            | ok valid =>
              simp only [h6] at hok
              injection hok with hok
              exact ⟨items, items2, idItems, ids, tItems, valid,
                rfl, h2, h3, h4, rfl, h6, hok.symm⟩

/-! ## Lemmas: the Bracket Scanner -/

/-- Inside a quoted string, characters other than `"` and `\` change
nothing: the scan continues behind them with the same state. -/
theorem scanBrace_quotes {rest : List Char} :
    ∀ (mid : List Char), (∀ c ∈ mid, c ≠ '"' ∧ c ≠ '\\') → ∀ (i : Nat) (depth : Int),
      scanBrace (mid ++ rest) i depth true false
        = scanBrace rest (i + mid.length) depth true false := by
  intro mid
  induction mid with
  | nil => intro _ i depth; simp
  | cons c cs ih =>
    intro hmid i depth
    have hc := hmid c (List.mem_cons_self c cs)
    have hcs := fun x hx => hmid x (List.mem_cons_of_mem c hx)
    have hstep : scanBrace (c :: (cs ++ rest)) i depth true false
        = scanBrace (cs ++ rest) (i + 1) depth true false := by
      simp [scanBrace, hc.1, hc.2]
    rw [List.cons_append, hstep, ih hcs (i + 1) depth]
    have harith : i + 1 + cs.length = i + (c :: cs).length := by
      simp [List.length_cons]; omega
    rw [harith]

/-! ## Lemmas: the per-object admission guard -/

theorem dupCheckPages_false :
    ∀ {ps : List Json} {o : Json}, dupCheckPages ps o = .ok false →
      ∀ p ∈ ps, ∃ pkvs, p = .obj pkvs
        ∧ pyEq (lookupD pkvs "url") (objGetD o "url") = false
        ∧ (truthy (lookupD pkvs "id") = true →
            pyEq (lookupD pkvs "id") (objGetD o "id") = false) := by
  intro ps
  induction ps with
  | nil => intro o _ p hp; simp at hp
  | cons q rest ih =>
    intro o hdc p hp
    cases q with
    | obj qkvs =>
      simp only [dupCheckPages] at hdc
      by_cases hcrit : (pyEq (lookupD qkvs "url") (objGetD o "url")
          || (truthy (lookupD qkvs "id") && pyEq (lookupD qkvs "id") (objGetD o "id"))) = true
      · rw [if_pos hcrit] at hdc
        injection hdc with hdc
        exact absurd hdc.symm (by simp)
      · rw [if_neg hcrit] at hdc
        rcases List.mem_cons.mp hp with hp | hp
        · subst hp
          refine ⟨qkvs, rfl, ?_, ?_⟩
          · revert hcrit
            cases pyEq (lookupD qkvs "url") (objGetD o "url") <;> simp
          · intro htr
            revert hcrit
            rw [htr]
            cases pyEq (lookupD qkvs "id") (objGetD o "id") <;> simp
        · exact ih hdc p hp
    | null => exact Except.noConfusion hdc
    | bool b => exact Except.noConfusion hdc
    | num n => exact Except.noConfusion hdc
    | str s => exact Except.noConfusion hdc
    | arr l => exact Except.noConfusion hdc

theorem admitPageSpan_inv {db : Json} (span : List Char) (hP : pagesDbInv db) :
    pagesDbInv (admitPageSpan db span) := by
  obtain ⟨kvs, ps, rfl, hps, hdist⟩ := hP
  simp only [admitPageSpan]
  by_cases hc : (containsSub "\"url\"".data span || containsSub "\"title\"".data span
      || containsSub "\"html_content\"".data span) = true
  · rw [if_pos hc]
    cases hparse : json_loads (cleanup_json span) with
    | none => exact ⟨kvs, ps, rfl, hps, hdist⟩
    | some o =>
      dsimp only
      by_cases hv : is_valid_page o = true
      · rw [if_pos hv]
        have hlv : dbListVal (.obj kvs) "pages" = some ps := by
          simp [dbListVal, hps]
        rw [hlv]
        dsimp only
        cases hdc : dupCheckPages ps o with
        | error e => exact ⟨kvs, ps, rfl, hps, hdist⟩
        | ok b =>
          cases b with
          | true => exact ⟨kvs, ps, rfl, hps, hdist⟩
          | false =>
            dsimp only [dbSetVal]
            refine ⟨_, ps ++ [o], rfl, lookupKV_objSet_eq _ _ _, ?_⟩
            rw [pagesDistinct, List.pairwise_append]
            refine ⟨hdist, List.pairwise_singleton _ _, ?_⟩
            intro p hp q hq
            rw [List.mem_singleton.mp hq]
            obtain ⟨pkvs, hpk, hu, hi⟩ := dupCheckPages_false hdc p hp
            subst hpk
            exact ⟨hu, hi⟩
      · rw [if_neg hv]
        exact ⟨kvs, ps, rfl, hps, hdist⟩
  · rw [if_neg hc]
    exact ⟨kvs, ps, rfl, hps, hdist⟩

theorem admitTopicSpan_inv {db : Json} (span : List Char) (hP : pagesDbInv db) :
    pagesDbInv (admitTopicSpan db span) := by
  obtain ⟨kvs, ps, rfl, hps, hdist⟩ := hP
  simp only [admitTopicSpan]
  by_cases hc : (containsSub "\"topic\"".data span
      && containsSub "\"page_id\"".data span) = true
  · rw [if_pos hc]
    cases hparse : json_loads (cleanup_json span) with
    | none => exact ⟨kvs, ps, rfl, hps, hdist⟩
    | some o =>
      cases o with
      | obj okvs =>
        dsimp only
        by_cases hk : (hasKey okvs "topic" && hasKey okvs "page_id") = true
        · rw [if_pos hk]
          cases hlv : dbListVal (.obj kvs) "page_topics" with
          | none => exact ⟨kvs, ps, rfl, hps, hdist⟩
          | some ts =>
            dsimp only
            cases hdc : dupCheckTopics ts (.obj okvs) with
            | error e => exact ⟨kvs, ps, rfl, hps, hdist⟩
            | ok b =>
              cases b with
              | true => exact ⟨kvs, ps, rfl, hps, hdist⟩
              | false =>
                dsimp only [dbSetVal]
                refine ⟨_, ps, rfl, ?_, hdist⟩
                rw [lookupKV_objSet_ne _ _
                  (by decide : ("page_topics" : String) ≠ "pages")]
                exact hps
        · rw [if_neg hk]
          exact ⟨kvs, ps, rfl, hps, hdist⟩
      | null => exact ⟨kvs, ps, rfl, hps, hdist⟩
      | bool b => exact ⟨kvs, ps, rfl, hps, hdist⟩
      | num n => exact ⟨kvs, ps, rfl, hps, hdist⟩
      | str s => exact ⟨kvs, ps, rfl, hps, hdist⟩
      | arr l => exact ⟨kvs, ps, rfl, hps, hdist⟩
  · rw [if_neg hc]
    exact ⟨kvs, ps, rfl, hps, hdist⟩

theorem settingsStepMerge_inv {db : Json} (cs : List Char) (hP : pagesDbInv db) :
    pagesDbInv (settingsStepMerge cs db) := by
  obtain ⟨kvs, ps, rfl, hps, hdist⟩ := hP
  have base : pagesDbInv (Json.obj kvs) := ⟨kvs, ps, rfl, hps, hdist⟩
  simp only [settingsStepMerge]
  cases hsp : spanLazy "settings".data '{' '}' cs with
  | none => exact base
  | some sp =>
    dsimp only
    cases hparse : json_loads (cleanup_json sp) with
    | none => exact base
    | some o =>
      cases o with
      | obj newKvs =>
        dsimp only
        cases hls : lookupKV kvs "settings" with
        | none => exact base
        | some sv =>
          cases sv with
          | obj skvs =>
            show pagesDbInv (Json.obj (objSet kvs "settings"
              (Json.obj (dictOfFields skvs newKvs))))
            refine ⟨objSet kvs "settings" (.obj (dictOfFields skvs newKvs)), ps, rfl, ?_, hdist⟩
            rw [lookupKV_objSet_ne _ _ (by decide : ("settings" : String) ≠ "pages")]
            exact hps
          | null => exact base
          | bool b => exact base
          | num n => exact base
          | str s => exact base
          | arr l => exact base
      | null => exact base
      | bool b => exact base
      | num n => exact base
      | str s => exact base
      | arr l => exact base

theorem foldl_pres {f : Json → List Char → Json}
    (hf : ∀ db span, pagesDbInv db → pagesDbInv (f db span)) :
    ∀ (spans : List (List Char)) (db : Json), pagesDbInv db →
      pagesDbInv (List.foldl f db spans) := by
  intro spans
  induction spans with
  | nil => intro db hP; exact hP
  | cons s rest ih => intro db hP; exact ih (f db s) (hf db s hP)

/-- The lazy span stops at the first closer: when the body holds none,
that is the closer that ends the span. -/
theorem takeToClose_append {closer : Char} :
    ∀ {body post : List Char}, closer ∉ body →
      takeToClose closer (body ++ closer :: post) = some (body ++ [closer]) := by
  intro body
  induction body with
  | nil => intro post _; simp [takeToClose]
  | cons c rest ih =>
    intro post h
    have hc : ¬c = closer := fun hcc => h (hcc ▸ List.mem_cons_self c rest)
    show (if c = closer then some [c]
        else (takeToClose closer (rest ++ closer :: post)).map (c :: ·))
      = some (c :: (rest ++ [closer]))
    rw [if_neg hc, ih (fun hr => h (List.mem_cons_of_mem c hr))]
    rfl

/-! ## The claims -/

/-- C4: the Bracket Scanner, pointed at the opening brace of the buffer
`{"content":"a {nested} \"quoted\" brace"}`, returns the index of its
matching closer — the final `}` at index 40 of the 41-character buffer,
not the brace inside the string — ; it reports incompleteness (`none`)
whenever the buffer ends before the match (every prefix of the example);
and quoted-string contents free of quotes and backslashes are opaque to
it in general. -/
theorem c4_bracket_scanner :
    findMatchingBrace c4Buffer 0 = some 40
    ∧ c4Buffer.length = 41
    ∧ (∀ n, n ≤ 40 → findMatchingBrace (c4Buffer.take n) 0 = none)
    ∧ (∀ mid, (∀ c ∈ mid, c ≠ '"' ∧ c ≠ '\\') →
        findMatchingBrace ('{' :: '"' :: mid ++ ['"', '}']) 0 = some (mid.length + 3)) := by
  refine ⟨by decide, by decide, by decide, ?_⟩
  intro mid hmid
  have h1 : findMatchingBrace ('{' :: '"' :: mid ++ ['"', '}']) 0
      = scanBrace (mid ++ ['"', '}']) 2 1 true false := rfl
  rw [h1, scanBrace_quotes mid hmid 2 1]
  have h2 : scanBrace ['"', '}'] (2 + mid.length) 1 true false
      = some (2 + mid.length + 1) := rfl
  rw [h2]
  congr 1
  omega

/-- Witness for C4 at concrete inputs: a truncated buffer is reported
incomplete, and a quoted one-character string is opaque. -/
theorem c4_bracket_scanner_witness :
    findMatchingBrace (c4Buffer.take 17) 0 = none
    ∧ findMatchingBrace ('{' :: '"' :: ['x'] ++ ['"', '}']) 0 = some 4 :=
  ⟨c4_bracket_scanner.2.2.1 17 (by decide),
   c4_bracket_scanner.2.2.2 ['x'] (by decide)⟩

/-- C2: after the Structural Normalizer succeeds, every relation retained
in `page_topics` has a `page_id` Python-equal to the truthy `id` of some
entry of `pages` — equivalently, every relation whose `page_id` matches
no entry id has been dropped (reader.py lines 428-443). -/
theorem c2_referential_integrity (h : String → Int) (now : String) (db db' : Json)
    (hok : verify_and_fix_structure h now db = .ok db') :
    ∀ t ∈ dbTopicsList db', ∃ p ∈ dbPagesList db',
      truthy (objGetD p "id") = true
      ∧ pyEq (objGetD t "page_id") (objGetD p "id") = true := by
  have vacuous : ∀ t ∈ dbTopicsList emptyDb, ∃ p ∈ dbPagesList emptyDb,
      truthy (objGetD p "id") = true
      ∧ pyEq (objGetD t "page_id") (objGetD p "id") = true := by
    intro t ht
    have hempty : dbTopicsList emptyDb = [] := rfl
    rw [hempty] at ht
    exact absurd ht (List.not_mem_nil t)
  cases db with
  | obj kvs0 =>
    obtain ⟨items, items2, idItems, ids, tItems, valid, h1, h2, h3, h4, h5, h6, hdb'⟩ :=
      verify_ok_obj hok
    intro t ht
    have htop : dbTopicsList db' = valid := by
      rw [hdb']
      simp [dbTopicsList, dbListVal, lookupKV_objSet_eq]
    rw [htop] at ht
    have hstep := filterTopics_ok_mem h6 t ht
    obtain ⟨tk, htk, y, hy, hpy⟩ := topicStep_some_spec hstep
    obtain ⟨p, hp, hidp⟩ := buildPageIds_ok_mem h4 y hy
    obtain ⟨pk, hpk, hyv, hty⟩ := idOfPage_some hidp
    have hpages : lookupKV (objSet (objSet (ensureAll kvs0) "pages"
        (pagesRepl (lookupD (ensureAll kvs0) "pages") items2)) "page_topics" (.arr valid))
        "pages" = some (pagesRepl (lookupD (ensureAll kvs0) "pages") items2) := by
      rw [lookupKV_objSet_ne _ _ (by decide : ("page_topics" : String) ≠ "pages")]
      exact lookupKV_objSet_eq _ _ _
    cases hP2 : pagesRepl (lookupD (ensureAll kvs0) "pages") items2 with
    | arr xs =>
      rw [hP2] at h3 hpages
      simp only [pyIter, Except.ok.injEq] at h3
      subst h3
      have hplist : dbPagesList db' = xs := by
        rw [hdb', hP2]
        simp [dbPagesList, dbListVal, hpages]
      refine ⟨p, by rw [hplist]; exact hp, ?_, ?_⟩
      · rw [hpk]
        show truthy (lookupD pk "id") = true
        rw [← hyv]; exact hty
      · rw [htk, hpk]
        show pyEq (lookupD tk "page_id") (lookupD pk "id") = true
        rw [← hyv]; exact hpy
    | null =>
      have := pyIter_nonarr_str h3 (by rw [hP2]; intro xs hxs; exact Json.noConfusion hxs) p hp
      rw [hpk] at this; exact absurd this (by simp [isObj])
    | bool b =>
      have := pyIter_nonarr_str h3 (by rw [hP2]; intro xs hxs; exact Json.noConfusion hxs) p hp
      rw [hpk] at this; exact absurd this (by simp [isObj])
    | num n =>
      have := pyIter_nonarr_str h3 (by rw [hP2]; intro xs hxs; exact Json.noConfusion hxs) p hp
      rw [hpk] at this; exact absurd this (by simp [isObj])
    | str s =>
      have := pyIter_nonarr_str h3 (by rw [hP2]; intro xs hxs; exact Json.noConfusion hxs) p hp
      rw [hpk] at this; exact absurd this (by simp [isObj])
    | obj o =>
      have := pyIter_nonarr_str h3 (by rw [hP2]; intro xs hxs; exact Json.noConfusion hxs) p hp
      rw [hpk] at this; exact absurd this (by simp [isObj])
  | null =>
    simp only [verify_and_fix_structure, Except.ok.injEq] at hok
    rw [← hok]; exact vacuous
  | bool b =>
    simp only [verify_and_fix_structure, Except.ok.injEq] at hok
    rw [← hok]; exact vacuous
  | num n =>
    simp only [verify_and_fix_structure, Except.ok.injEq] at hok
    rw [← hok]; exact vacuous
  | str s =>
    simp only [verify_and_fix_structure, Except.ok.injEq] at hok
    rw [← hok]; exact vacuous
  | arr xs =>
    simp only [verify_and_fix_structure, Except.ok.injEq] at hok
    rw [← hok]; exact vacuous

/-- Witness for C2: in a concrete loaded database the retained relation
to page id 1 matches some entry's id (the orphaned relation to id 9 was
dropped by the same run). -/
theorem c2_referential_integrity_witness :
    ∃ p ∈ dbPagesList (.obj (objSet (objSet (ensureAll
      [("pages", .arr [.obj [("id", .num 1)]]),
       ("page_topics", .arr [.obj [("topic", .str "t"), ("page_id", .num 1)],
         .obj [("topic", .str "u"), ("page_id", .num 9)]])])
      "pages" (.arr [.obj [("id", .num 1), ("title", .str "Untitled"),
        ("date_archived", .str "NOW")]]))
      "page_topics" (.arr [.obj [("topic", .str "t"), ("page_id", .num 1)]]))),
      truthy (objGetD p "id") = true
      ∧ pyEq (objGetD (.obj [("topic", .str "t"), ("page_id", .num 1)]) "page_id")
          (objGetD p "id") = true :=
  c2_referential_integrity hash7 "NOW"
    (.obj [("pages", .arr [.obj [("id", .num 1)]]),
      ("page_topics", .arr [.obj [("topic", .str "t"), ("page_id", .num 1)],
        .obj [("topic", .str "u"), ("page_id", .num 9)]])]) _ rfl
    (.obj [("topic", .str "t"), ("page_id", .num 1)])
    (List.mem_singleton.mpr rfl)

/-- C3: the Structural Normalizer is idempotent — whenever it succeeds,
running it again on its result (at any later time `now'`) returns the
result unchanged, so `normalize (normalize db) = normalize db`. -/
theorem c3_normalizer_idempotent (h : String → Int) (now now' : String) (db db' : Json)
    (hok : verify_and_fix_structure h now db = .ok db') :
    verify_and_fix_structure h now' db' = .ok db' := by
  cases db with
  | obj kvs0 =>
    obtain ⟨items, items2, idItems, ids, tItems, valid, h1, h2, h3, h4, h5, h6, hdb'⟩ :=
      verify_ok_obj hok
    subst hdb'
    set pagesV := lookupD (ensureAll kvs0) "pages" with hpagesV
    set P2 := pagesRepl pagesV items2 with hP2def
    set K := objSet (objSet (ensureAll kvs0) "pages" P2) "page_topics" (Json.arr valid)
      with hKdef
    have hKpages : lookupKV K "pages" = some P2 := by
      rw [hKdef, lookupKV_objSet_ne _ _ (by decide : ("page_topics" : String) ≠ "pages")]
      exact lookupKV_objSet_eq _ _ _
    have hKtopics : lookupKV K "page_topics" = some (Json.arr valid) := by
      rw [hKdef]; exact lookupKV_objSet_eq _ _ _
    have hkeys := ensureAll_hasKeys kvs0
    have hK1 : hasKey K "pages" = true := by simp [hasKey, hKpages]
    have hK2 : hasKey K "page_topics" = true := by simp [hasKey, hKtopics]
    have hK3 : hasKey K "settings" = true := by
      rw [hKdef, hasKey_objSet_ne _ _ (by decide : ("page_topics" : String) ≠ "settings"),
        hasKey_objSet_ne _ _ (by decide : ("pages" : String) ≠ "settings")]
      exact hkeys.2.2.1
    have hK4 : hasKey K "crawl_queue" = true := by
      rw [hKdef, hasKey_objSet_ne _ _ (by decide : ("page_topics" : String) ≠ "crawl_queue"),
        hasKey_objSet_ne _ _ (by decide : ("pages" : String) ≠ "crawl_queue")]
      exact hkeys.2.2.2
    have hEns : ensureAll K = K := ensureAll_of_hasKeys hK1 hK2 hK3 hK4
    have hLPK : lookupD K "pages" = P2 := by simp [lookupD, hKpages]
    have hLTK : lookupD K "page_topics" = Json.arr valid := by simp [lookupD, hKtopics]
    have hP2cases : P2 = Json.arr items2 ∨ (P2 = pagesV ∧ ∀ xs, pagesV ≠ Json.arr xs) := by
      rw [hP2def]
      cases pagesV with
      | arr l => exact Or.inl rfl
      | null => exact Or.inr ⟨rfl, fun xs hxs => Json.noConfusion hxs⟩
      | bool b => exact Or.inr ⟨rfl, fun xs hxs => Json.noConfusion hxs⟩
      | num n => exact Or.inr ⟨rfl, fun xs hxs => Json.noConfusion hxs⟩
      | str s => exact Or.inr ⟨rfl, fun xs hxs => Json.noConfusion hxs⟩
      | obj o => exact Or.inr ⟨rfl, fun xs hxs => Json.noConfusion hxs⟩
    have hfix : ∀ x ∈ idItems, fixPage h now' x = .ok x := by
      intro x hx
      rcases hP2cases with hP2a | ⟨hP2b, hne⟩
      · rw [hP2a] at h3
        simp only [pyIter, Except.ok.injEq] at h3
        subst h3
        obtain ⟨x0, _, hfx⟩ := mapME_ok_mem h2 x hx
        exact fixPage_idem hfx
      · rw [hP2b] at h3
        exact fixPage_nonobj (pyIter_nonarr_str h3 hne x hx)
    have hmap2 : mapME (fixPage h now') idItems = .ok idItems := mapME_id hfix
    have hPR2 : pagesRepl P2 idItems = P2 := by
      rcases hP2cases with hP2a | ⟨hP2b, hne⟩
      · rw [hP2a] at h3 ⊢
        simp only [pyIter, Except.ok.injEq] at h3
        subst h3
        rfl
      · rw [hP2b]
        cases hv : pagesV with
        | arr l => exact absurd hv (hne l)
        | null => simp [pagesRepl, hv]
        | bool b => simp [pagesRepl, hv]
        | num n => simp [pagesRepl, hv]
        | str s => simp [pagesRepl, hv]
        | obj o => simp [pagesRepl, hv]
    have hft2 : filterTopics ids valid = .ok valid :=
      filterTopics_self (filterTopics_ok_mem h6)
    have hset1 : objSet K "pages" P2 = K := objSet_self hKpages
    have hset2 : objSet K "page_topics" (Json.arr valid) = K := objSet_self hKtopics
    have hIterValid : pyIter (Json.arr valid) = .ok valid := rfl
    show verify_and_fix_structure h now' (.obj K) = .ok (.obj K)
    simp only [verify_and_fix_structure, hEns, hLPK, h3, hmap2, hPR2, h4, hLTK,
      hIterValid, hft2, hset1, hset2]
  | null =>
    simp only [verify_and_fix_structure, Except.ok.injEq] at hok
    subst hok; rfl
  | bool b =>
    simp only [verify_and_fix_structure, Except.ok.injEq] at hok
    subst hok; rfl
  | num n =>
    simp only [verify_and_fix_structure, Except.ok.injEq] at hok
    subst hok; rfl
  | str s =>
    simp only [verify_and_fix_structure, Except.ok.injEq] at hok
    subst hok; rfl
  | arr xs =>
    simp only [verify_and_fix_structure, Except.ok.injEq] at hok
    subst hok; rfl

/-- Witness for C3: the normalized form of the empty dict is a fixed point
of the normalizer, at a different current time. -/
theorem c3_normalizer_idempotent_witness :
    verify_and_fix_structure hash7 "LATER"
      (.obj (objSet (objSet (ensureAll []) "pages" (.arr [])) "page_topics" (.arr [])))
    = .ok (.obj (objSet (objSet (ensureAll []) "pages" (.arr []))
        "page_topics" (.arr []))) :=
  c3_normalizer_idempotent hash7 "NOW" "LATER" (.obj []) _ rfl

/-- Counterexample to C7 as stated: on the whole-document parse path the
file `{"pages":[{"foo":1}]}` parses wholesale, so the candidate object
`{"foo":1}` — which has none of `url`/`title`/`id` and fails
`is_valid_page` — enters the pages collection, and the ingestion still
succeeds (the normalizer then adds a default title). -/
theorem c7_counterexample :
    json_loads c7Raw = some (.obj [("pages", .arr [.obj [("foo", .num 1)]])])
    ∧ is_valid_page (.obj [("foo", .num 1)]) = false
    ∧ load_file_whole hash7 "NOW" c7Raw = .ok (.obj
        [("pages", .arr [.obj [("foo", .num 1), ("title", .str "Untitled"),
          ("date_archived", .str "NOW")]]),
         ("page_topics", .arr []), ("settings", .obj []), ("crawl_queue", .arr [])]) :=
  ⟨rfl, rfl, rfl⟩

/-- C7 amended: after any successful ingestion every entry of the pages
collection is a dict with at least one of `url`/`title`/`id` — the
normalizer defaults `title` on every entry, which covers the
whole-document and whole-array paths where `is_valid_page` never runs;
only the extraction paths reject key-less candidates at admission. -/
theorem c7_amended (h : String → Int) (now : String) (db db' : Json)
    (hok : verify_and_fix_structure h now db = .ok db') :
    ∀ p ∈ dbPagesList db', ∃ kvs, p = .obj kvs
      ∧ (hasKey kvs "url" || hasKey kvs "title" || hasKey kvs "id") = true := by
  have vacuous : ∀ p ∈ dbPagesList emptyDb, ∃ kvs, p = .obj kvs
      ∧ (hasKey kvs "url" || hasKey kvs "title" || hasKey kvs "id") = true := by
    intro p hp
    have hempty : dbPagesList emptyDb = [] := rfl
    rw [hempty] at hp
    exact absurd hp (List.not_mem_nil p)
  cases db with
  | obj kvs0 =>
    obtain ⟨items, items2, idItems, ids, tItems, valid, h1, h2, h3, h4, h5, h6, hdb'⟩ :=
      verify_ok_obj hok
    intro p hp
    have hpages : lookupKV (objSet (objSet (ensureAll kvs0) "pages"
        (pagesRepl (lookupD (ensureAll kvs0) "pages") items2)) "page_topics" (.arr valid))
        "pages" = some (pagesRepl (lookupD (ensureAll kvs0) "pages") items2) := by
      rw [lookupKV_objSet_ne _ _ (by decide : ("page_topics" : String) ≠ "pages")]
      exact lookupKV_objSet_eq _ _ _
    cases hP2 : pagesRepl (lookupD (ensureAll kvs0) "pages") items2 with
    | arr xs =>
      rw [hP2] at h3 hpages
      simp only [pyIter, Except.ok.injEq] at h3
      subst h3
      have hplist : dbPagesList db' = xs := by
        rw [hdb', hP2]
        simp [dbPagesList, dbListVal, hpages]
      rw [hplist] at hp
      have hobj := buildPageIds_ok_obj h4 p hp
      have hxs2 : xs = items2 := by
        cases hv : lookupD (ensureAll kvs0) "pages" with
        | arr l => rw [hv] at hP2; simp only [pagesRepl, Json.arr.injEq] at hP2; exact hP2.symm
        | null => rw [hv] at hP2; exact absurd hP2 (by simp [pagesRepl])
        | bool b => rw [hv] at hP2; exact absurd hP2 (by simp [pagesRepl])
        | num n => rw [hv] at hP2; exact absurd hP2 (by simp [pagesRepl])
        | str s => rw [hv] at hP2; exact absurd hP2 (by simp [pagesRepl])
        | obj o => rw [hv] at hP2; exact absurd hP2 (by simp [pagesRepl])
      rw [hxs2] at hp
      obtain ⟨x, _, hfx⟩ := mapME_ok_mem h2 p hp
      cases x with
      | obj kx =>
        obtain ⟨kvs3, hpk, ht, _, _, _⟩ := fixPage_obj_inv hfx
        exact ⟨kvs3, hpk, by rw [ht]; simp⟩
      | null =>
        rw [fixPage_nonobj (show isObj Json.null = false from rfl)] at hfx
        injection hfx with hfx
        rw [← hfx] at hobj
        exact absurd hobj (by simp [isObj])
      | bool b =>
        rw [fixPage_nonobj (show isObj (Json.bool b) = false from rfl)] at hfx
        injection hfx with hfx
        rw [← hfx] at hobj
        exact absurd hobj (by simp [isObj])
      | num n =>
        rw [fixPage_nonobj (show isObj (Json.num n) = false from rfl)] at hfx
        injection hfx with hfx
        rw [← hfx] at hobj
        exact absurd hobj (by simp [isObj])
      | str s =>
        rw [fixPage_nonobj (show isObj (Json.str s) = false from rfl)] at hfx
        injection hfx with hfx
        rw [← hfx] at hobj
        exact absurd hobj (by simp [isObj])
      | arr l =>
        rw [fixPage_nonobj (show isObj (Json.arr l) = false from rfl)] at hfx
        injection hfx with hfx
        rw [← hfx] at hobj
        exact absurd hobj (by simp [isObj])
    | null =>
      rw [hP2] at hpages
      have hplist : dbPagesList db' = [] := by
        rw [hdb', hP2]
        simp [dbPagesList, dbListVal, hpages]
      rw [hplist] at hp
      exact absurd hp (List.not_mem_nil p)
    | bool b =>
      rw [hP2] at hpages
      have hplist : dbPagesList db' = [] := by
        rw [hdb', hP2]
        simp [dbPagesList, dbListVal, hpages]
      rw [hplist] at hp
      exact absurd hp (List.not_mem_nil p)
    | num n =>
      rw [hP2] at hpages
      have hplist : dbPagesList db' = [] := by
        rw [hdb', hP2]
        simp [dbPagesList, dbListVal, hpages]
      rw [hplist] at hp
      exact absurd hp (List.not_mem_nil p)
    | str s =>
      rw [hP2] at hpages
      have hplist : dbPagesList db' = [] := by
        rw [hdb', hP2]
        simp [dbPagesList, dbListVal, hpages]
      rw [hplist] at hp
      exact absurd hp (List.not_mem_nil p)
    | obj o =>
      rw [hP2] at hpages
      have hplist : dbPagesList db' = [] := by
        rw [hdb', hP2]
        simp [dbPagesList, dbListVal, hpages]
      rw [hplist] at hp
      exact absurd hp (List.not_mem_nil p)
  | null =>
    simp only [verify_and_fix_structure, Except.ok.injEq] at hok
    rw [← hok]; exact vacuous
  | bool b =>
    simp only [verify_and_fix_structure, Except.ok.injEq] at hok
    rw [← hok]; exact vacuous
  | num n =>
    simp only [verify_and_fix_structure, Except.ok.injEq] at hok
    rw [← hok]; exact vacuous
  | str s =>
    simp only [verify_and_fix_structure, Except.ok.injEq] at hok
    rw [← hok]; exact vacuous
  | arr l =>
    simp only [verify_and_fix_structure, Except.ok.injEq] at hok
    rw [← hok]; exact vacuous

/-- Witness for the amended C7: the repaired key-less page of the
counterexample database carries one of the keys (its defaulted title). -/
theorem c7_amended_witness :
    ∃ kvs, (Json.obj [("foo", .num 1), ("title", .str "Untitled"),
        ("date_archived", .str "NOW")]) = .obj kvs
      ∧ (hasKey kvs "url" || hasKey kvs "title" || hasKey kvs "id") = true :=
  c7_amended hash7 "NOW" (.obj [("pages", .arr [.obj [("foo", .num 1)]])]) _ rfl
    (.obj [("foo", .num 1), ("title", .str "Untitled"), ("date_archived", .str "NOW")])
    (List.mem_singleton.mpr rfl)

/-- C10: the normalizer assigns a synthetic id only to entries carrying a
`url` (reader.py line 418): an entry admitted with neither `url` nor `id`
still has no `id` after normalization, and every retained topic
relation's `page_id` differs from that entry's (absent, i.e. `None`) id,
so no relation can ever refer to it. -/
theorem c10_no_synthetic_id_without_url (h : String → Int) (now : String) (db db' : Json)
    (hok : verify_and_fix_structure h now db = .ok db')
    (i : Nat) (kvs : List (String × Json))
    (hpage : (dbPagesList db).get? i = some (.obj kvs))
    (hnourl : hasKey kvs "url" = false) (hnoid : hasKey kvs "id" = false) :
    ∃ kvs', (dbPagesList db').get? i = some (.obj kvs')
      ∧ hasKey kvs' "id" = false
      ∧ ∀ t ∈ dbTopicsList db',
          pyEq (objGetD t "page_id") (objGetD (.obj kvs') "id") = false := by
  cases db with
  | obj kvs0 =>
    obtain ⟨items, items2, idItems, ids, tItems, valid, h1, h2, h3, h4, h5, h6, hdb'⟩ :=
      verify_ok_obj hok
    -- the original pages value must be a list holding the page at index i
    cases hlp : lookupKV kvs0 "pages" with
    | none =>
      have : dbPagesList (.obj kvs0) = [] := by simp [dbPagesList, dbListVal, hlp]
      rw [this] at hpage
      simp at hpage
    | some v =>
      cases v with
      | arr ps =>
        have hps : dbPagesList (.obj kvs0) = ps := by simp [dbPagesList, dbListVal, hlp]
        rw [hps] at hpage
        have hkp : hasKey kvs0 "pages" = true := by simp [hasKey, hlp]
        have hens : lookupD (ensureAll kvs0) "pages" = .arr ps := by
          simp [lookupD, lookupKV_ensureAll_pages hkp, hlp]
        rw [hens] at h1 h3
        simp only [pyIter, Except.ok.injEq] at h1
        subst h1
        have hP2 : pagesRepl (Json.arr ps) items2 = Json.arr items2 := rfl
        rw [hP2] at h3
        simp only [pyIter, Except.ok.injEq] at h3
        subst h3
        have hpages : lookupKV (objSet (objSet (ensureAll kvs0) "pages"
            (pagesRepl (lookupD (ensureAll kvs0) "pages") items2)) "page_topics"
            (.arr valid)) "pages"
            = some (pagesRepl (lookupD (ensureAll kvs0) "pages") items2) := by
          rw [lookupKV_objSet_ne _ _ (by decide : ("page_topics" : String) ≠ "pages")]
          exact lookupKV_objSet_eq _ _ _
        rw [hens, hP2] at hpages
        have hplist : dbPagesList db' = items2 := by
          rw [hdb', hens, hP2]
          simp [dbPagesList, dbListVal, hpages]
        have htop : dbTopicsList db' = valid := by
          rw [hdb']
          simp [dbTopicsList, dbListVal, lookupKV_objSet_eq]
        obtain ⟨q, hq, hfq⟩ := mapME_ok_get? h2 i (.obj kvs) hpage
        obtain ⟨kvs', hq', _, _, hid, _⟩ := fixPage_obj_inv hfq
        subst hq'
        have hid' : hasKey kvs' "id" = false := by rw [hid, hnoid, hnourl]; rfl
        refine ⟨kvs', by rw [hplist]; exact hq, hid', ?_⟩
        intro t ht
        rw [htop] at ht
        have hstep := filterTopics_ok_mem h6 t ht
        obtain ⟨tk, htk, y, hy, hpy⟩ := topicStep_some_spec hstep
        obtain ⟨p, _, hidp⟩ := buildPageIds_ok_mem h4 y hy
        obtain ⟨pk, hpk, hyv, hty⟩ := idOfPage_some hidp
        have hnullid : objGetD (Json.obj kvs') "id" = Json.null := by
          show lookupD kvs' "id" = Json.null
          exact lookupD_null_of_hasKey_false hid'
        rw [hnullid, htk]
        show pyEq (lookupD tk "page_id") Json.null = false
        cases hpq : pyEq (lookupD tk "page_id") Json.null with
        | false => rfl
        | true =>
          exfalso
          have hpid := pyEq_null_right hpq
          rw [hpid] at hpy
          have hynull := pyEq_null_left hpy
          rw [hynull] at hty
          exact absurd hty (by simp [truthy])
      | null =>
        have : dbPagesList (.obj kvs0) = [] := by simp [dbPagesList, dbListVal, hlp]
        rw [this] at hpage; simp at hpage
      | bool b =>
        have : dbPagesList (.obj kvs0) = [] := by simp [dbPagesList, dbListVal, hlp]
        rw [this] at hpage; simp at hpage
      | num n =>
        have : dbPagesList (.obj kvs0) = [] := by simp [dbPagesList, dbListVal, hlp]
        rw [this] at hpage; simp at hpage
      | str s =>
        have : dbPagesList (.obj kvs0) = [] := by simp [dbPagesList, dbListVal, hlp]
        rw [this] at hpage; simp at hpage
      | obj o =>
        have : dbPagesList (.obj kvs0) = [] := by simp [dbPagesList, dbListVal, hlp]
        rw [this] at hpage; simp at hpage
  | null =>
    have : dbPagesList Json.null = [] := rfl
    rw [this] at hpage; simp at hpage
  | bool b =>
    have : dbPagesList (Json.bool b) = [] := rfl
    rw [this] at hpage; simp at hpage
  | num n =>
    have : dbPagesList (Json.num n) = [] := rfl
    rw [this] at hpage; simp at hpage
  | str s =>
    have : dbPagesList (Json.str s) = [] := rfl
    rw [this] at hpage; simp at hpage
  | arr l =>
    have : dbPagesList (Json.arr l) = [] := rfl
    rw [this] at hpage; simp at hpage

/-- Witness for C10: the title-only entry of `c10Db` keeps no id and the
(dropped) relation collection refers to nothing. -/
theorem c10_no_synthetic_id_without_url_witness :
    ∃ kvs', (dbPagesList (.obj (objSet (objSet (ensureAll
        [("pages", .arr [.obj [("title", .str "T")]]),
         ("page_topics", .arr [.obj [("topic", .str "x"), ("page_id", .num 1)]])])
      "pages" (.arr [.obj [("title", .str "T"), ("date_archived", .str "NOW")]]))
      "page_topics" (.arr [])))).get? 0 = some (.obj kvs')
      ∧ hasKey kvs' "id" = false
      ∧ ∀ t ∈ dbTopicsList (.obj (objSet (objSet (ensureAll
        [("pages", .arr [.obj [("title", .str "T")]]),
         ("page_topics", .arr [.obj [("topic", .str "x"), ("page_id", .num 1)]])])
      "pages" (.arr [.obj [("title", .str "T"), ("date_archived", .str "NOW")]]))
      "page_topics" (.arr []))),
          pyEq (objGetD t "page_id") (objGetD (.obj kvs') "id") = false :=
  c10_no_synthetic_id_without_url hash7 "NOW" c10Db _ rfl 0 [("title", .str "T")]
    rfl rfl rfl

/-- Counterexample to C1: on the whole-document parse path no
deduplication happens and the normalizer deduplicates nothing — the
well-formed file `{"pages":[{"url":"a"},{"url":"a"}]}` ingests
successfully into a database whose entries at indices 0 and 1 share the
same `url` and the same non-null (truthy) `id`. -/
theorem c1_counterexample :
    load_file_whole hash7 "NOW" c1Raw = .ok c1Result
    ∧ (dbPagesList c1Result).get? 0 = some c1Page
    ∧ (dbPagesList c1Result).get? 1 = some c1Page
    ∧ pyEq (objGetD c1Page "url") (objGetD c1Page "url") = true
    ∧ truthy (objGetD c1Page "id") = true
    ∧ pyEq (objGetD c1Page "id") (objGetD c1Page "id") = true :=
  ⟨rfl, rfl, rfl, rfl, rfl, rfl⟩

/-- C1 amended: only the url half of the uniqueness invariant survives
the extraction path end to end.  (i) `extract_objects` preserves
admission-time distinctness (no shared url; no earlier truthy `id`
shared with a later entry), because its guard skips such candidates;
(ii) the Structural Normalizer then preserves url-distinctness, since it
never changes a `url`; (iii) but id-uniqueness fails even there: the
guard exempts falsy ids and the normalizer's synthetic
`hash(url) % 10000000` ids can collide across distinct urls — extracting
two distinct-url pages and normalizing leaves two entries with distinct
urls and the same truthy id.  The whole-document and whole-array parse
paths admit even url duplicates unchanged (see the counterexample). -/
theorem c1_amended :
    (∀ (cs : List Char) (db : Json), pagesDbInv db → pagesDbInv (extract_objects cs db))
    ∧ (∀ (h : String → Int) (now : String) (db db' : Json), pagesDbInv db →
        verify_and_fix_structure h now db = .ok db' →
        List.Pairwise (fun p q => pyEq (objGetD p "url") (objGetD q "url") = false)
          (dbPagesList db'))
    ∧ verify_and_fix_structure hash7 "NOW" (extract_objects c1CollText emptyDb)
        = .ok c1CollDb
    ∧ (dbPagesList c1CollDb).get? 0 = some c1PageA
    ∧ (dbPagesList c1CollDb).get? 1 = some c1PageB
    ∧ pyEq (objGetD c1PageA "url") (objGetD c1PageB "url") = false
    ∧ truthy (objGetD c1PageA "id") = true
    ∧ pyEq (objGetD c1PageA "id") (objGetD c1PageB "id") = true := by
  refine ⟨?_, ?_, rfl, rfl, rfl, rfl, rfl, rfl⟩
  · intro cs db hP
    simp only [extract_objects]
    exact settingsStepMerge_inv cs
      (foldl_pres (fun d s hd => admitTopicSpan_inv s hd) _ _
        (foldl_pres (fun d s hd => admitPageSpan_inv s hd) _ _ hP))
  · intro h now db db' hP hok
    obtain ⟨kvs, ps, rfl, hps, hdist⟩ := hP
    obtain ⟨items, items2, idItems, ids, tItems, valid, h1, h2, h3, h4, h5, h6, hdb'⟩ :=
      verify_ok_obj hok
    have hkp : hasKey kvs "pages" = true := by simp [hasKey, hps]
    have hens : lookupD (ensureAll kvs) "pages" = .arr ps := by
      simp [lookupD, lookupKV_ensureAll_pages hkp, hps]
    rw [hens] at h1 h3
    simp only [pyIter, Except.ok.injEq] at h1
    subst h1
    have hP2 : pagesRepl (Json.arr ps) items2 = Json.arr items2 := rfl
    rw [hP2] at h3
    simp only [pyIter, Except.ok.injEq] at h3
    subst h3
    have hpages : lookupKV (objSet (objSet (ensureAll kvs) "pages"
        (pagesRepl (lookupD (ensureAll kvs) "pages") items2)) "page_topics"
        (.arr valid)) "pages"
        = some (pagesRepl (lookupD (ensureAll kvs) "pages") items2) := by
      rw [lookupKV_objSet_ne _ _ (by decide : ("page_topics" : String) ≠ "pages")]
      exact lookupKV_objSet_eq _ _ _
    rw [hens, hP2] at hpages
    have hplist : dbPagesList db' = items2 := by
      rw [hdb', hens, hP2]
      simp [dbPagesList, dbListVal, hpages]
    rw [hplist]
    exact mapME_pairwise_url h2 (List.Pairwise.imp (fun hab => hab.1) hdist)

/-- Witness for the amended C1: admission-time distinctness is preserved
by a concrete extraction, and the normalized collision database is still
pairwise url-distinct. -/
theorem c1_amended_witness :
    pagesDbInv (extract_objects c1ExtractText emptyDb)
    ∧ List.Pairwise (fun p q => pyEq (objGetD p "url") (objGetD q "url") = false)
        (dbPagesList c1CollDb) :=
  ⟨c1_amended.1 c1ExtractText emptyDb
      ⟨[("pages", .arr []), ("page_topics", .arr []), ("settings", .obj []),
        ("crawl_queue", .arr [])], [], rfl, rfl, List.Pairwise.nil⟩,
   c1_amended.2.1 hash7 "NOW" (extract_objects c1CollText emptyDb) c1CollDb
      ⟨[("pages", .arr [.obj [("url", .str "a"), ("title", .str "t")],
          .obj [("url", .str "b"), ("title", .str "t")]]),
        ("page_topics", .arr []), ("settings", .obj []), ("crawl_queue", .arr [])],
        [.obj [("url", .str "a"), ("title", .str "t")],
         .obj [("url", .str "b"), ("title", .str "t")]], rfl, rfl,
        List.Pairwise.cons
          (fun q hq => by
            rw [List.mem_singleton.mp hq]
            exact ⟨rfl, fun htr => Bool.noConfusion htr⟩)
          (List.pairwise_singleton _ _)⟩
      rfl⟩

/-- Counterexample to C5: `extract_full_database`'s array-section step
delimits the `pages` span with the lazy regex alone (reader.py line 295),
so on an input whose array holds a `]` inside a string value the
extracted span stops at that first `]` and is not the complete balanced
array that delimiting by the Bracket Scanner would give. -/
theorem c5_counterexample :
    spanLazy "pages".data '[' ']' c5LazyInput
      = some "[\x7b\"url\":\"a\",\"title\":\"x]".data
    ∧ pagesSpanBalancedSpec c5LazyInput
      = some "[\x7b\"url\":\"a\",\"title\":\"x]y\"\x7d]".data
    ∧ spanLazy "pages".data '[' ']' c5LazyInput ≠ pagesSpanBalancedSpec c5LazyInput :=
  ⟨by decide, by decide, by decide⟩

/-- C5 amended: the lazy-regex span extracted at the `pages` key is the
complete array exactly when the array body holds no `]` — for every
`]`-free body it is the full span — whereas only `extract_other_data`'s
`page_topics` step delimits with the Bracket Scanner and survives a `]`
inside a string value. -/
theorem c5_amended :
    (∀ body post : List Char, ']' ∉ body →
      spanLazy "pages".data '[' ']' (pagesKeyPre ++ body ++ ']' :: post)
        = some ('[' :: (body ++ [']'])))
    ∧ topicsSpanBalanced c5BalInput
        = some "[\x7b\"topic\":\"a]b\",\"page_id\":1\x7d]".data := by
  refine ⟨?_, by decide⟩
  intro body post hbody
  have h1 : spanLazy "pages".data '[' ']' (pagesKeyPre ++ body ++ ']' :: post)
      = (takeToClose ']' (body ++ ']' :: post)).map ('[' :: ·) := rfl
  rw [h1, takeToClose_append hbody]
  rfl

/-- Witness for the amended C5 at a concrete `]`-free body. -/
theorem c5_amended_witness :
    spanLazy "pages".data '[' ']' (pagesKeyPre ++ "ab".data ++ ']' :: [])
      = some ('[' :: ("ab".data ++ [']'])) :=
  c5_amended.1 "ab".data [] (by decide)

/-- Counterexample to C6: `extract_full_database`'s settings step
*replaces* the settings mapping (reader.py lines 321-327): extracting the
fragment `"settings": {"b":2}` into a database whose settings are
`{"a":1}` leaves exactly `{"b":2}` — the pre-existing key `a` is gone,
not merged. -/
theorem c6_counterexample :
    extract_full_database c6Frag2 dbWithSettingsA
      = .obj [("pages", .arr []), ("page_topics", .arr []),
        ("settings", .obj [("b", .num 2)]), ("crawl_queue", .arr [])]
    ∧ hasKey [("b", Json.num 2)] "a" = false := ⟨rfl, rfl⟩

/-- C6 amended: the settings step of `extract_objects` does merge
key-wise with `dict.update` — extracting `{"a":1}` then `{"b":2}` yields
`{"a":1,"b":2}`, and an update preserves every key the new fragment does
not mention — whereas `extract_full_database` (and `extract_other_data`)
replace the mapping instead (see the counterexample). -/
theorem c6_settings_merge_amended :
    objGetD (extract_objects c6Frag2 (extract_objects c6Frag1 emptyDb)) "settings"
      = .obj [("a", .num 1), ("b", .num 2)]
    ∧ (∀ old new : List (String × Json), ∀ k, k ∉ new.map Prod.fst →
        lookupKV (dictOfFields old new) k = lookupKV old k) := by
  refine ⟨rfl, ?_⟩
  intro old new
  induction new generalizing old with
  | nil => intro k _; rfl
  | cons kv rest ih =>
    intro k hk
    obtain ⟨k0, v0⟩ := kv
    simp only [List.map, List.mem_cons] at hk
    push_neg at hk
    simp only [dictOfFields]
    rw [ih (objSet old k0 v0) k hk.2]
    exact lookupKV_objSet_ne _ _ (fun he => hk.1 he.symm)

/-- Witness for the amended C6: updating `{"a":1}` with `{"b":2}` leaves
the binding of `a` unchanged. -/
theorem c6_settings_merge_amended_witness :
    lookupKV (dictOfFields [("a", Json.num 1)] [("b", Json.num 2)]) "a"
      = lookupKV [("a", Json.num 1)] "a" :=
  c6_settings_merge_amended.2 [("a", Json.num 1)] [("b", Json.num 2)] "a" (by decide)

/-- C8: the salvage scenario.  On the text consisting solely of
`"url": "http://example.com/a"` the extraction passes find nothing and
ingestion succeeds via the Salvage Extractor, yielding exactly one entry
with that url, title "Unknown", the partial-recovery sentinel
description, and sequential synthetic id 1. -/
theorem c8_salvage (h : String → Int) (now : String) :
    process_unstructured_json h now c8Text = .ok (c8Db now)
    ∧ extract_objects c8Text emptyDb = emptyDb := ⟨rfl, rfl⟩

/-- C9: how `get_page_topics` actually behaves.  The inline string case
(split on commas, trimmed, empties dropped) and the relation fallback
match the claim, but a list-valued inline `topics` — which the data model
allows and `print_stats` (reader.py lines 578-583) handles — makes
`get_page_topics` call `.split` on a list and raise `AttributeError`
instead of returning the entry's topics. -/
theorem c9_topic_lookup :
    get_page_topics c9Db c9PageList = .error "AttributeError: split"
    ∧ get_page_topics c9Db c9PageStr = .ok (.arr [.str "science", .str "math"])
    ∧ get_page_topics c9Db c9PageRel = .ok (.arr [.str "rel"]) := ⟨rfl, rfl, rfl⟩

end WorldEndArchive
